import Mathlib

/-!
Verification of the chatwarp-api WhatsApp protocol core.

This file shallowly embeds the Rust sources under `src/` (the WABinary codec
`src/wa/binary_node.rs`, the websocket transport `src/wa/transport.rs`, the MD
noise state machine `src/wa/noise_md.rs`, and the instance runner
`src/instance/runner.rs`) as executable Lean definitions, and proves or refutes
the specification claims about them.

Machine integers are modelled as `Nat` (bytes are `Nat`s below 256 where the
source guarantees it; `u32` wrapping is written explicitly as `% 2^32`).
Byte strings (`Vec<u8>`, `Bytes`, and the byte content of Rust `String`s) are
`List Nat`.  Fallible operations return `Except`.  External collaborators
(zlib inflation, SHA-256, HKDF, AES-GCM, QR rendering) are passed in as
function parameters, so every theorem about them holds for the real
implementations.
-/

set_option maxRecDepth 20000

namespace ChatWarp

/-- Errors of the websocket transport (`src/wa/error.rs`).  The
`ClosedWithCode` variant is used by `src/wa/transport.rs` but its declaration
is absent from the `error.rs` present under `src/`;
it is modelled from the spec taxonomy (§7: `ClosedWithCode(u16)`). -/
inductive TransportError where
  | WebSocket
  | Connect
  | InvalidRequest
  | InvalidFrame (msg : String)
  | FrameTooLarge
  | Closed
  | ClosedWithCode (code : Nat)
  deriving DecidableEq, Repr

/-- `WsTransport::send_frame` (src/wa/transport.rs:93-107): prepends the 24-bit
big-endian length and returns the bytes handed to the websocket; payloads
longer than `0xFFFFFF` fail with `FrameTooLarge` before anything is sent. -/
def send_frame (payload : List Nat) : Except TransportError (List Nat) :=
  if payload.length > 0xFFFFFF then
    .error .FrameTooLarge
  else
    .ok ([(payload.length >>> 16) &&& 0xFF,
          (payload.length >>> 8) &&& 0xFF,
          payload.length &&& 0xFF] ++ payload)

/-- `pop_framed_payload` (src/wa/transport.rs:180-194).  Returns the popped
payload (if a whole frame is buffered) and the remaining buffer.  The Rust
function wraps the result in `Result` but has no error path. -/
def pop_framed_payload (buffer : List Nat) : Option (List Nat) × List Nat :=
  match buffer with
  | b0 :: b1 :: b2 :: rest =>
    if (b0 :: b1 :: b2 :: rest).length < 3 + ((b0 <<< 16) ||| (b1 <<< 8) ||| b2) then
      (none, buffer)
    else
      (some (rest.take ((b0 <<< 16) ||| (b1 <<< 8) ||| b2)),
       rest.drop ((b0 <<< 16) ||| (b1 <<< 8) ||| b2))
  | _ => (none, buffer)

/-- `decode_raw_close_code` (src/wa/transport.rs:196-202). -/
def decode_raw_close_code (data : List Nat) : Option Nat :=
  match data with
  | [b0, b1, b2, b3] =>
    if b0 = 0x88 ∧ b1 = 0x02 then some (b2 * 256 + b3) else none
  | _ => none

/-- The `Message::Binary` arm of `WsTransport::next_raw_frame`
(src/wa/transport.rs:128-136): a binary payload matching the raw close shape
surfaces `ClosedWithCode`, any other binary payload is returned as a frame. -/
def next_raw_frame_binary (data : List Nat) : Except TransportError (List Nat) :=
  match decode_raw_close_code data with
  | some code => .error (.ClosedWithCode code)
  | none => .ok data

/-- `backoff_seconds` (src/instance/runner.rs:1191-1200). -/
def backoff_seconds (attempt : Nat) : Nat :=
  match attempt with
  | 0 => 1
  | 1 => 2
  | 2 => 4
  | 3 => 8
  | 4 => 16
  | _ => 30

/-- Errors of the WABinary codec (union of the variants constructed in
src/wa/binary_node.rs; the `error.rs` under `src/` lists a subset, the spec
taxonomy in §7 lists the rest). -/
inductive BinaryNodeError where
  | UnexpectedEof
  | InvalidSymbolType (b : Nat)
  | InvalidContentType (b : Nat)
  | InvalidUtf8
  | UnknownToken (b : Nat)
  | UnknownTokenDictionary (d : Nat)
  | UnknownDoubleToken (dict index : Nat)
  | SymbolTooLong
  | PayloadTooLarge
  | TooManyAttributes
  | TooManyChildren
  | TrailingBytes
  | AttributeLookupFailed
  | InvalidListTag (b : Nat)
  | InvalidPackedChar (b : Nat)
  | InvalidFrame (msg : String)
  | InvalidCompressedNode
  | InflateFailed (msg : String)
  deriving DecidableEq, Repr

/-- `decompress_if_required` (src/wa/binary_node.rs:798-817), parameterised by
the zlib inflation routine (the external `flate2` library), which is passed in
as `inflate`. -/
def decompress_if_required (inflate : List Nat → Except String (List Nat))
    (input : List Nat) : Except BinaryNodeError (List Nat) :=
  match input with
  | [] => .error .InvalidCompressedNode
  | first :: rest =>
    if first &&& 0x02 ≠ 0 then
      match inflate rest with
      | .ok out => .ok out
      | .error e => .error (.InflateFailed e)
    else if (first :: rest).length < 2 then .error .InvalidCompressedNode
    else .ok rest

lemma recombine24 (L : Nat) (h : L < 2 ^ 24) :
    (((L >>> 16) &&& 0xFF) <<< 16) ||| (((L >>> 8) &&& 0xFF) <<< 8) ||| (L &&& 0xFF) = L := by
  have h255 : (0xFF : Nat) = 2 ^ 8 - 1 := by norm_num
  apply Nat.eq_of_testBit_eq
  intro i
  simp only [h255, Nat.and_pow_two_sub_one_eq_mod, Nat.testBit_or, Nat.testBit_shiftLeft,
    Nat.testBit_mod_two_pow, Nat.testBit_shiftRight]
  by_cases h1 : i < 8
  · have e1 : ¬ 16 ≤ i := by omega
    have e2 : ¬ 8 ≤ i := by omega
    simp [e1, e2, h1]
  · by_cases h2 : i < 16
    · have e1 : ¬ 16 ≤ i := by omega
      have e2 : 8 ≤ i := by omega
      have e3 : i - 8 < 8 := by omega
      have e4 : 8 + (i - 8) = i := by omega
      simp [e1, e2, e3, e4, h1]
    · by_cases h3 : i < 24
      · have e1 : 16 ≤ i := by omega
        have e2 : i - 16 < 8 := by omega
        have e3 : 16 + (i - 16) = i := by omega
        have e4 : ¬ i - 8 < 8 := by omega
        simp [e1, e2, e3, e4, h1]
      · have e2 : ¬ i - 16 < 8 := by omega
        have e4 : ¬ i - 8 < 8 := by omega
        have e5 : ¬ i < 8 := by omega
        have e6 : L.testBit i = false :=
          Nat.testBit_lt_two_pow (lt_of_lt_of_le h (Nat.pow_le_pow_right (by norm_num) (by omega)))
        simp [e2, e4, e5, e6]

lemma byte_of_masked_shift (L n : Nat) : (L >>> n) &&& 0xFF = L / 2 ^ n % 2 ^ 8 := by
  have h255 : (0xFF : Nat) = 2 ^ 8 - 1 := by norm_num
  rw [h255, Nat.and_pow_two_sub_one_eq_mod, Nat.shiftRight_eq_div_pow]

/-- C2: 24-bit framing round-trip and size limit.  For payloads of length at
most `2^24 - 1`, `send_frame` emits the 3-byte big-endian length followed by
the payload, and `pop_framed_payload` on exactly that frame returns the
payload and an empty buffer; longer payloads fail with `FrameTooLarge` and
nothing is handed to the websocket. -/
theorem send_frame_roundtrip (p : List Nat) :
    (p.length ≤ 0xFFFFFF →
      send_frame p =
        .ok ([p.length / 2 ^ 16 % 2 ^ 8, p.length / 2 ^ 8 % 2 ^ 8, p.length % 2 ^ 8] ++ p) ∧
      pop_framed_payload
          ([p.length / 2 ^ 16 % 2 ^ 8, p.length / 2 ^ 8 % 2 ^ 8, p.length % 2 ^ 8] ++ p) =
        (some p, [])) ∧
    (0xFFFFFF < p.length → send_frame p = .error .FrameTooLarge) := by
  constructor
  · intro hle
    have hlt : p.length < 2 ^ 24 := by norm_num at hle ⊢; omega
    have hb0 : (p.length >>> 16) &&& 0xFF = p.length / 2 ^ 16 % 2 ^ 8 := byte_of_masked_shift _ _
    have hb1 : (p.length >>> 8) &&& 0xFF = p.length / 2 ^ 8 % 2 ^ 8 := byte_of_masked_shift _ _
    have hb2 : p.length &&& 0xFF = p.length % 2 ^ 8 := by
      have := byte_of_masked_shift p.length 0
      simpa using this
    constructor
    · rw [send_frame, if_neg (by omega)]
      rw [hb0, hb1, hb2]
    · have hrec := recombine24 p.length hlt
      rw [hb0, hb1, hb2] at hrec
      simp only [List.cons_append, List.nil_append, pop_framed_payload, hrec,
        List.length_cons, List.length_append]
      rw [if_neg (by omega)]
      simp
  · intro hgt
    rw [send_frame, if_pos (by omega)]

/-- Witness for `send_frame_roundtrip` at the one-byte payload `[42]`. -/
theorem send_frame_roundtrip_witness :
    ([42] : List Nat).length ≤ 0xFFFFFF ∧
      (send_frame [42] =
          .ok ([([42] : List Nat).length / 2 ^ 16 % 2 ^ 8,
                ([42] : List Nat).length / 2 ^ 8 % 2 ^ 8,
                ([42] : List Nat).length % 2 ^ 8] ++ [42]) ∧
        pop_framed_payload
            ([([42] : List Nat).length / 2 ^ 16 % 2 ^ 8,
              ([42] : List Nat).length / 2 ^ 8 % 2 ^ 8,
              ([42] : List Nat).length % 2 ^ 8] ++ [42]) =
          (some [42], [])) :=
  ⟨by decide, (send_frame_roundtrip [42]).1 (by decide)⟩

/-- C3: raw close-frame detection.  A 4-byte binary payload `88 02 XX YY` is
surfaced by the binary-message arm of `next_raw_frame` as
`ClosedWithCode (XX <<< 8 ||| YY)`; every payload not of exactly that shape
yields `none` from `decode_raw_close_code` and is returned as a normal
frame. -/
theorem raw_close_detection :
    (∀ x y : Nat, decode_raw_close_code [0x88, 0x02, x, y] = some (x * 256 + y) ∧
      next_raw_frame_binary [0x88, 0x02, x, y] = .error (.ClosedWithCode (x * 256 + y))) ∧
    (∀ data : List Nat,
      (data.length ≠ 4 ∨ data[0]? ≠ some 0x88 ∨ data[1]? ≠ some 0x02) →
      decode_raw_close_code data = none ∧ next_raw_frame_binary data = .ok data) := by
  constructor
  · intro x y
    constructor
    · simp [decode_raw_close_code]
    · simp [next_raw_frame_binary, decode_raw_close_code]
  · intro data hshape
    have hnone : decode_raw_close_code data = none := by
      match data with
      | [] => rfl
      | [a] => rfl
      | [a, b] => rfl
      | [a, b, c] => rfl
      | [a, b, c, d] =>
        rcases hshape with h | h | h
        · simp at h
        · simp at h
          simp [decode_raw_close_code, h]
        · simp at h
          simp [decode_raw_close_code, h]
      | a :: b :: c :: d :: e :: rest => rfl
    exact ⟨hnone, by simp [next_raw_frame_binary, hnone]⟩

/-- Witness for `raw_close_detection` at the non-close payload `[1, 2, 3]`. -/
theorem raw_close_detection_witness :
    (([1, 2, 3] : List Nat).length ≠ 4 ∨ ([1, 2, 3] : List Nat)[0]? ≠ some 0x88 ∨
        ([1, 2, 3] : List Nat)[1]? ≠ some 0x02) ∧
      (decode_raw_close_code [1, 2, 3] = none ∧ next_raw_frame_binary [1, 2, 3] = .ok [1, 2, 3]) :=
  ⟨by decide, raw_close_detection.2 [1, 2, 3] (by decide)⟩

lemma backoff_seconds_step (a : Nat) : backoff_seconds a ≤ backoff_seconds (a + 1) := by
  match a with
  | 0 | 1 | 2 | 3 | 4 => decide
  | n + 5 => exact le_refl 30

/-- C6: reconnect backoff values: 1, 2, 4, 8, 16 for attempts 0..4, then 30;
hence non-decreasing, bounded by 30, with range exactly {1,2,4,8,16,30}. -/
theorem backoff_seconds_spec :
    (backoff_seconds 0 = 1 ∧ backoff_seconds 1 = 2 ∧ backoff_seconds 2 = 4 ∧
      backoff_seconds 3 = 8 ∧ backoff_seconds 4 = 16 ∧
      ∀ a, 5 ≤ a → backoff_seconds a = 30) ∧
    (∀ a b, a ≤ b → backoff_seconds a ≤ backoff_seconds b) ∧
    (∀ a, backoff_seconds a ≤ 30) ∧
    (∀ a, backoff_seconds a ∈ ([1, 2, 4, 8, 16, 30] : List Nat)) ∧
    (∀ v ∈ ([1, 2, 4, 8, 16, 30] : List Nat), ∃ a, backoff_seconds a = v) := by
  have hval : ∀ a, 5 ≤ a → backoff_seconds a = 30 := by
    intro a ha
    match a, ha with
    | n + 5, _ => rfl
  have hmono : ∀ a b, a ≤ b → backoff_seconds a ≤ backoff_seconds b := by
    intro a b hab
    induction hab with
    | refl => exact le_refl _
    | step _ ih => exact ih.trans (backoff_seconds_step _)
  have hmem : ∀ a, backoff_seconds a ∈ ([1, 2, 4, 8, 16, 30] : List Nat) := by
    intro a
    match a with
    | 0 | 1 | 2 | 3 | 4 => decide
    | n + 5 => simp [backoff_seconds]
  refine ⟨⟨rfl, rfl, rfl, rfl, rfl, hval⟩, hmono, ?_, hmem, ?_⟩
  · intro a
    match a with
    | 0 | 1 | 2 | 3 | 4 => decide
    | n + 5 => simp [backoff_seconds]
  · intro v hv
    simp only [List.mem_cons, List.not_mem_nil, or_false] at hv
    rcases hv with rfl | rfl | rfl | rfl | rfl | rfl
    · exact ⟨0, rfl⟩
    · exact ⟨1, rfl⟩
    · exact ⟨2, rfl⟩
    · exact ⟨3, rfl⟩
    · exact ⟨4, rfl⟩
    · exact ⟨5, rfl⟩

/-- Witness for `backoff_seconds_spec`: the tail constancy at attempt 7. -/
theorem backoff_seconds_spec_witness : (5 : Nat) ≤ 7 ∧ backoff_seconds 7 = 30 :=
  ⟨by decide, backoff_seconds_spec.1.2.2.2.2.2 7 (by decide)⟩

/-- C10: edge cases of `decompress_if_required`: the empty input and any
single byte with the compression bit clear are rejected with
`InvalidCompressedNode`; with the compression bit set the remainder (even if
empty) is handed to zlib inflation; with the bit clear and at least one body
byte the flag byte is stripped. -/
theorem decompress_if_required_edges (inflate : List Nat → Except String (List Nat)) :
    decompress_if_required inflate [] = .error .InvalidCompressedNode ∧
    (∀ b : Nat, b &&& 0x02 = 0 →
      decompress_if_required inflate [b] = .error .InvalidCompressedNode) ∧
    (∀ first rest, first &&& 0x02 ≠ 0 →
      decompress_if_required inflate (first :: rest) =
        match inflate rest with
        | .ok out => .ok out
        | .error e => .error (.InflateFailed e)) ∧
    (∀ first rest, first &&& 0x02 = 0 → rest ≠ [] →
      decompress_if_required inflate (first :: rest) = .ok rest) := by
  refine ⟨rfl, ?_, ?_, ?_⟩
  · intro b hb
    simp [decompress_if_required, hb]
  · intro first rest hbit
    simp [decompress_if_required, hbit]
  · intro first rest hbit hne
    rcases rest with _ | ⟨r, rs⟩
    · exact absurd rfl hne
    · simp [decompress_if_required, hbit]

/-- Witness for `decompress_if_required_edges`: the single flag byte `[0x00]`
is rejected (instantiated with a trivial inflation function). -/
theorem decompress_if_required_edges_witness :
    (0 : Nat) &&& 0x02 = 0 ∧
      decompress_if_required (fun l => .ok l) [0] = .error .InvalidCompressedNode :=
  ⟨by decide, (decompress_if_required_edges (fun l => .ok l)).2.1 0 (by decide)⟩

/-- `WaProtocolMode` (src/config.rs:8-15). -/
inductive WaProtocolMode where
  | Auto
  | RealMd
  | Synthetic
  deriving DecidableEq, Repr

/-- Handshake phases.  `HandshakePhase` is referenced throughout
`src/wa/noise_md.rs`, `src/wa/handshake.rs` and `src/instance/runner.rs` but
its declaration is absent from the `error.rs` present under `src/`.
Modelled from the spec: §7 "All handshake phase errors carry a
`HandshakePhase` tag ∈ {HttpUpgrade, ClientHello, ServerHello, ClientFinish,
PostFinish}". -/
inductive HandshakePhase where
  | HttpUpgrade
  | ClientHello
  | ServerHello
  | ClientFinish
  | PostFinish
  deriving DecidableEq, Repr

/-- `NoiseError` (src/wa/error.rs:21-27). -/
inductive NoiseError where
  | Cipher
  | InvalidKeyMaterial
  deriving DecidableEq, Repr

/-- `HandshakeError` (src/wa/error.rs:89-104).  The `Phase` variant (built by
`HandshakeError::with_phase`) is used throughout the sources but absent from
the `error.rs` present under `src/`; it is modelled from the spec taxonomy
(§7: `Phase{phase, message}`).  The message is modelled as its character
sequence. -/
inductive HandshakeError where
  | Transport (e : TransportError)
  | Noise (e : NoiseError)
  | Decode (msg : String)
  | Encode (msg : String)
  | MissingField (f : String)
  | InvalidKeyLength (f : String)
  | Phase (phase : HandshakePhase) (message : List Char)
  deriving DecidableEq, Repr

/-- The suffix of `s` just after the first occurrence of `marker`
(mirrors `message.find(marker)` followed by slicing past the marker in
`extract_close_code_from_message`). -/
def suffix_after_first (marker : List Char) : List Char → Option (List Char)
  | [] => if marker.isPrefixOf ([] : List Char) then some [] else none
  | c :: rest =>
    if marker.isPrefixOf (c :: rest) then some ((c :: rest).drop marker.length)
    else suffix_after_first marker rest

/-- Rust `str::parse::<u16>` on a string of ASCII digits collected by
`take_while(is_ascii_digit)`: fails when empty or above `u16::MAX`. -/
def parse_u16_digits (ds : List Char) : Option Nat :=
  if ds = [] then none
  else
    let v := ds.foldl (fun acc c => acc * 10 + (c.toNat - '0'.toNat)) 0
    if v ≤ 65535 then some v else none

/-- `extract_close_code_from_message` (src/instance/runner.rs:554-560). -/
def extract_close_code_from_message (message : List Char) : Option Nat :=
  match suffix_after_first "code ".toList message with
  | none => none
  | some suffix => parse_u16_digits (suffix.takeWhile fun c => c.isDigit)

/-- `extract_handshake_phase` (src/instance/runner.rs:539-544). -/
def extract_handshake_phase (error : HandshakeError) : Option HandshakePhase :=
  match error with
  | .Phase phase _ => some phase
  | _ => none

/-- `extract_close_code` (src/instance/runner.rs:546-552). -/
def extract_close_code (error : HandshakeError) : Option Nat :=
  match error with
  | .Transport (.ClosedWithCode code) => some code
  | .Phase _ message => extract_close_code_from_message message
  | _ => none

/-- `should_retry_with_refetched_version` (src/instance/runner.rs:520-537). -/
def should_retry_with_refetched_version (mode : WaProtocolMode) (retries : Nat)
    (error : HandshakeError) : Bool :=
  if mode = .Synthetic ∨ 1 ≤ retries then false
  else
    match extract_close_code error with
    | none => false
    | some close_code =>
      if close_code ≠ 1011 then false
      else
        match extract_handshake_phase error with
        | some .HttpUpgrade | some .ClientHello | some .ServerHello => true
        | some .ClientFinish | some .PostFinish => false
        | none => false

/-- The handshake-retry loop of `connect_once` (src/instance/runner.rs:388-434)
abstracted over the outcomes the successive handshake attempts would produce:
returns the number of version-refetch retries performed (`retries` is a `u8`,
incremented with `saturating_add`). -/
def connect_once_retries (mode : WaProtocolMode) :
    Nat → List (Except HandshakeError Unit) → Nat
  | retries, [] => retries
  | retries, (.ok _) :: _ => retries
  | retries, (.error e) :: rest =>
    if should_retry_with_refetched_version mode retries e then
      connect_once_retries mode (min (retries + 1) 255) rest
    else retries

lemma connect_once_retries_frozen (mode : WaProtocolMode)
    (results : List (Except HandshakeError Unit)) (retries : Nat) (h : 1 ≤ retries) :
    connect_once_retries mode retries results = retries := by
  induction results with
  | nil => rfl
  | cons head rest ih =>
    cases head with
    | ok _ => rfl
    | error e =>
      have hfalse : should_retry_with_refetched_version mode retries e = false := by
        rw [should_retry_with_refetched_version, if_pos (Or.inr h)]
      simp [connect_once_retries, hfalse]

/-- C7: version-refetch retry classification.  `should_retry_with_refetched_version`
returns true iff the mode is not synthetic, no retry has happened yet, the
error carries close code exactly 1011, and its phase is HttpUpgrade,
ClientHello or ServerHello; consequently the `connect_once` retry loop
performs at most one version-refetch retry. -/
theorem should_retry_with_refetched_version_spec :
    (∀ (mode : WaProtocolMode) (retries : Nat) (error : HandshakeError),
      should_retry_with_refetched_version mode retries error = true ↔
        (mode ≠ .Synthetic ∧ retries = 0 ∧ extract_close_code error = some 1011 ∧
          (extract_handshake_phase error = some .HttpUpgrade ∨
            extract_handshake_phase error = some .ClientHello ∨
            extract_handshake_phase error = some .ServerHello))) ∧
    (∀ (mode : WaProtocolMode) (results : List (Except HandshakeError Unit)),
      connect_once_retries mode 0 results ≤ 1) := by
  constructor
  · intro mode retries error
    rw [should_retry_with_refetched_version]
    by_cases hmode : mode = .Synthetic ∨ 1 ≤ retries
    · rw [if_pos hmode]
      simp only [Bool.false_eq_true, false_iff]
      rintro ⟨h1, h2, _⟩
      rcases hmode with h | h
      · exact h1 h
      · omega
    · rw [if_neg hmode]
      push_neg at hmode
      obtain ⟨hm, hr⟩ := hmode
      have hr0 : retries = 0 := by omega
      cases hcc : extract_close_code error with
      | none => simp [hm, hr0]
      | some cc =>
        by_cases hcc1011 : cc = 1011
        · subst hcc1011
          cases hph : extract_handshake_phase error with
          | none => simp [hm, hr0]
          | some ph => cases ph <;> simp [hm, hr0]
        · simp [hm, hr0, hcc1011]
  · intro mode results
    cases results with
    | nil => exact Nat.zero_le 1
    | cons head rest =>
      cases head with
      | ok _ => exact Nat.zero_le 1
      | error e =>
        rw [connect_once_retries]
        by_cases hretry : should_retry_with_refetched_version mode 0 e = true
        · rw [if_pos hretry]
          rw [connect_once_retries_frozen mode rest (min 1 255) (by omega)]
          omega
        · rw [if_neg hretry]
          exact Nat.zero_le 1

/-- `ConnectionState` (src/instance/handle.rs:13-22). -/
inductive ConnectionState where
  | Connecting
  | QrPending
  | Connected
  | Disconnected
  deriving DecidableEq, Repr

/-- `QrCodeStatus` (src/instance/handle.rs:59-68); `count` is a `u32`. -/
structure QrCodeStatus where
  count : Nat
  code : Option String
  base64 : Option String
  pairing_code : Option String
  deriving DecidableEq, Repr

/-- `QrCodeStatus::default()`. -/
def QrCodeStatus.default : QrCodeStatus :=
  { count := 0, code := none, base64 := none, pairing_code := none }

/-- `InstanceStatus` (src/instance/handle.rs). -/
structure InstanceStatus where
  state : ConnectionState
  qrcode : QrCodeStatus
  last_error : Option String
  deriving DecidableEq, Repr

/-- `InstanceStatus::default()` (src/instance/handle.rs:70-78). -/
def InstanceStatus.default : InstanceStatus :=
  { state := .Disconnected, qrcode := QrCodeStatus.default, last_error := none }

/-- `Event` (src/wa/events.rs:5-16). -/
inductive Event where
  | QrCode (payload : String)
  | Connected (instance_name : String)
  | Disconnected (instance_name reason : String)
  | OutboundAck (instance_name message_id : String) (bytes : Nat)
  | ReconnectScheduled (instance_name : String) (delay_secs : Nat)
  deriving DecidableEq, Repr

/-- Rust `str::parse::<u32>` restricted to an optional leading `+` and
decimal digits, failing on empty input and on overflow past `u32::MAX`. -/
def parse_u32_chars (ds : List Char) : Option Nat :=
  let digits := match ds with
    | '+' :: rest => rest
    | other => other
  if digits = [] ∨ ¬ digits.all (fun c => c.isDigit) then none
  else
    let v := digits.foldl (fun acc c => acc * 10 + (c.toNat - '0'.toNat)) 0
    if v ≤ 4294967295 then some v else none

/-- Rust `str::trim` on a character sequence. -/
def trim_chars (ds : List Char) : List Char :=
  ((ds.dropWhile Char.isWhitespace).reverse.dropWhile Char.isWhitespace).reverse

/-- `DEFAULT_QRCODE_LIMIT` (src/instance/runner.rs:97). -/
def DEFAULT_QRCODE_LIMIT : Nat := 30

/-- `qrcode_limit_from_env` (src/instance/runner.rs:830-836), with the value
of the `QRCODE_LIMIT` environment variable passed in as `env`. -/
def qrcode_limit_from_env (env : Option (List Char)) : Nat :=
  match env with
  | none => DEFAULT_QRCODE_LIMIT
  | some raw =>
    match parse_u32_chars (trim_chars raw) with
    | none => DEFAULT_QRCODE_LIMIT
    | some v => if 0 < v then v else DEFAULT_QRCODE_LIMIT

/-- `update_qr_state` (src/instance/runner.rs:793-828) as a pure transition:
given the QR-SVG renderer (external `render_qr_svg_data_url`, as `render`),
the configured limit, the instance name, the current status and the QR
payload, it returns the new status, the emitted events, and the boolean the
function returns (`false` when the limit was hit). -/
def update_qr_state (render : String → Option String) (limit : Nat)
    (name : String) (status : InstanceStatus) (qr_payload : String) :
    InstanceStatus × List Event × Bool :=
  if status.qrcode.count ≥ limit then
    ({ state := .Disconnected, qrcode := QrCodeStatus.default,
       last_error := some "qr_code_limit_reached" },
     [Event.Disconnected name "qr_code_limit_reached"], false)
  else
    ({ state := .QrPending,
       qrcode := { count := min (status.qrcode.count + 1) (2 ^ 32 - 1),
                   code := some qr_payload,
                   base64 := render qr_payload,
                   pairing_code := none },
       last_error := none },
     [Event.QrCode qr_payload], true)

/-- The status/event effect of `force_disconnected`
(src/instance/runner.rs:851-877). -/
def force_disconnected_status (name reason : String) : InstanceStatus × List Event :=
  ({ state := .Disconnected, qrcode := QrCodeStatus.default,
     last_error := if reason = "" then none else some reason },
   [Event.Disconnected name reason])

/-- The frame-error arm of the `run` select loop
(src/instance/runner.rs:141-185): when `handle_incoming_frame` (or the
transport) fails with `reason`, the runner force-disconnects and then invokes
`establish_connection` exactly when `session.auto_reconnect` is set; the
returned boolean records whether `establish_connection` is invoked.  The
error reason is not inspected. -/
def run_frame_error_step (auto_reconnect : Bool) (name reason : String)
    (_status : InstanceStatus) : InstanceStatus × List Event × Bool :=
  ((force_disconnected_status name reason).1,
   (force_disconnected_status name reason).2,
   auto_reconnect)

/-- C8 counterexample: with `auto_reconnect` set (as it is after a `Connect`
command), a frame error with reason `"qr_code_limit_reached"` still invokes
`establish_connection` — the runner does auto-reconnect from this
condition, refuting the claim's final conjunct. -/
theorem qr_limit_still_reconnects :
    (run_frame_error_step true "alpha" "qr_code_limit_reached" InstanceStatus.default).2.2
      = true := rfl

/-- C8 (amended): each emitted QR increments `status.qrcode.count` by one and
emits exactly a `QrCode` event; a request at or past the limit emits no
`QrCode`, sets the state to `Disconnected` and emits a `Disconnected` event
with reason `"qr_code_limit_reached"`; the default limit is 30; and the
subsequent frame-error handling invokes `establish_connection` exactly when
`auto_reconnect` is set (the reason string is not special-cased). -/
theorem update_qr_state_spec (render : String → Option String) (limit : Nat)
    (name : String) (status : InstanceStatus) (qr : String) :
    (status.qrcode.count < limit → limit ≤ 2 ^ 32 - 1 →
      update_qr_state render limit name status qr =
        ({ state := .QrPending,
           qrcode := { count := status.qrcode.count + 1, code := some qr,
                       base64 := render qr, pairing_code := none },
           last_error := none },
         [Event.QrCode qr], true)) ∧
    (limit ≤ status.qrcode.count →
      update_qr_state render limit name status qr =
        ({ state := .Disconnected, qrcode := QrCodeStatus.default,
           last_error := some "qr_code_limit_reached" },
         [Event.Disconnected name "qr_code_limit_reached"], false)) ∧
    qrcode_limit_from_env none = 30 ∧
    (∀ auto_reconnect : Bool, ∀ reason : String,
      (run_frame_error_step auto_reconnect name reason status).2.2 = auto_reconnect) := by
  refine ⟨?_, ?_, rfl, fun _ _ => rfl⟩
  · intro hlt hlim
    have hmin : min (status.qrcode.count + 1) (2 ^ 32 - 1) = status.qrcode.count + 1 := by
      omega
    rw [update_qr_state, if_neg (by omega), hmin]
  · intro hge
    rw [update_qr_state, if_pos (by omega)]

/-- Witness for `update_qr_state_spec`: a fresh status below the default
limit emits the QR and increments the counter. -/
theorem update_qr_state_spec_witness :
    (InstanceStatus.default.qrcode.count < 30 ∧ (30 : Nat) ≤ 2 ^ 32 - 1) ∧
      update_qr_state (fun _ => none) 30 "alpha" InstanceStatus.default "qr-payload" =
        ({ state := .QrPending,
           qrcode := { count := InstanceStatus.default.qrcode.count + 1,
                       code := some "qr-payload", base64 := none, pairing_code := none },
           last_error := none },
         [Event.QrCode "qr-payload"], true) :=
  ⟨⟨by decide, by norm_num⟩,
    (update_qr_state_spec (fun _ => none) 30 "alpha" InstanceStatus.default "qr-payload").1
      (by decide) (by norm_num)⟩

/-- The cryptographic collaborators of `src/wa/noise_md.rs` (the external
`sha2`, `hkdf` and `aes-gcm` crates): SHA-256, the 64-byte HKDF expansion of
`local_hkdf` (salt, ikm), and AES-256-GCM seal/open keyed by (key, counter,
associated data).  All noise theorems hold for every instantiation. -/
structure NoiseCrypto where
  sha256 : List Nat → List Nat
  hkdf64 : List Nat → List Nat → List Nat
  aesEncrypt : List Nat → Nat → List Nat → List Nat → Except String (List Nat)
  aesDecrypt : List Nat → Nat → List Nat → List Nat → Except String (List Nat)

/-- `TransportKeys` (src/wa/noise_md.rs:26-32); counters are `u32`. -/
structure TransportKeys where
  enc_key : List Nat
  dec_key : List Nat
  write_counter : Nat
  read_counter : Nat

/-- `NoiseMdState` (src/wa/noise_md.rs:34-46). -/
structure NoiseMdState where
  hash : List Nat
  salt : List Nat
  enc_key : List Nat
  dec_key : List Nat
  counter : Nat
  intro_header : List Nat
  sent_intro : Bool
  frame_buffer : List Nat
  transport : Option TransportKeys

/-- `NoiseMdState::authenticate` (src/wa/noise_md.rs:318-325). -/
def NoiseMdState.authenticate (C : NoiseCrypto) (s : NoiseMdState) (bytes : List Nat) :
    NoiseMdState :=
  if s.transport.isNone then { s with hash := C.sha256 (s.hash ++ bytes) } else s

/-- `NoiseMdState::local_hkdf` (src/wa/noise_md.rs:327-338). -/
def NoiseMdState.local_hkdf (C : NoiseCrypto) (s : NoiseMdState) (ikm : List Nat) :
    List Nat × List Nat :=
  ((C.hkdf64 s.salt ikm).take 32, (C.hkdf64 s.salt ikm).drop 32)

/-- `NoiseMdState::mix_into_key` (src/wa/noise_md.rs:340-346). -/
def NoiseMdState.mix_into_key (C : NoiseCrypto) (s : NoiseMdState) (ikm : List Nat) :
    NoiseMdState :=
  { s with salt := (s.local_hkdf C ikm).1,
           enc_key := (s.local_hkdf C ikm).2,
           dec_key := (s.local_hkdf C ikm).2,
           counter := 0 }

/-- `NoiseMdState::finish_init` (src/wa/noise_md.rs:146-154). -/
def NoiseMdState.finish_init (C : NoiseCrypto) (s : NoiseMdState) : NoiseMdState :=
  { s with transport := some { enc_key := (s.local_hkdf C []).1,
                               dec_key := (s.local_hkdf C []).2,
                               write_counter := 0,
                               read_counter := 0 } }

/-- `NoiseMdState::encrypt_handshake` (src/wa/noise_md.rs:348-354): result
plus successor state. -/
def NoiseMdState.encrypt_handshake (C : NoiseCrypto) (s : NoiseMdState)
    (plaintext : List Nat) : Except HandshakeError (List Nat) × NoiseMdState :=
  match C.aesEncrypt s.enc_key s.counter s.hash plaintext with
  | .error e => (.error (.Phase .ServerHello e.toList), s)
  | .ok encrypted =>
    (.ok encrypted,
     NoiseMdState.authenticate C { s with counter := (s.counter + 1) % 2 ^ 32 } encrypted)

/-- `NoiseMdState::decrypt_handshake` (src/wa/noise_md.rs:356-362). -/
def NoiseMdState.decrypt_handshake (C : NoiseCrypto) (s : NoiseMdState)
    (ciphertext : List Nat) : Except HandshakeError (List Nat) × NoiseMdState :=
  match C.aesDecrypt s.dec_key s.counter s.hash ciphertext with
  | .error e => (.error (.Phase .ServerHello e.toList), s)
  | .ok decrypted =>
    (.ok decrypted,
     NoiseMdState.authenticate C { s with counter := (s.counter + 1) % 2 ^ 32 } ciphertext)

/-- `NoiseMdState::encrypt_transport` (src/wa/noise_md.rs:364-373). -/
def NoiseMdState.encrypt_transport (C : NoiseCrypto) (s : NoiseMdState)
    (plaintext : List Nat) : Except HandshakeError (List Nat) × NoiseMdState :=
  match s.transport with
  | none => (.ok plaintext, s)
  | some t =>
    match C.aesEncrypt t.enc_key t.write_counter [] plaintext with
    | .error e => (.error (.Phase .PostFinish e.toList), s)
    | .ok encrypted =>
      (.ok encrypted,
       { s with transport := some { t with write_counter := (t.write_counter + 1) % 2 ^ 32 } })

/-- `NoiseMdState::decrypt_transport` (src/wa/noise_md.rs:375-384). -/
def NoiseMdState.decrypt_transport (C : NoiseCrypto) (s : NoiseMdState)
    (ciphertext : List Nat) : Except HandshakeError (List Nat) × NoiseMdState :=
  match s.transport with
  | none => (.ok ciphertext, s)
  | some t =>
    match C.aesDecrypt t.dec_key t.read_counter [] ciphertext with
    | .error e => (.error (.Phase .PostFinish e.toList), s)
    | .ok decrypted =>
      (.ok decrypted,
       { s with transport := some { t with read_counter := (t.read_counter + 1) % 2 ^ 32 } })

/-- `NoiseMdState::encode_frame` (src/wa/noise_md.rs:156-183). -/
def NoiseMdState.encode_frame (C : NoiseCrypto) (s : NoiseMdState) (data : List Nat) :
    Except HandshakeError (List Nat) × NoiseMdState :=
  match (if s.transport.isSome then s.encrypt_transport C data else (.ok data, s)) with
  | (.error e, s1) => (.error e, s1)
  | (.ok payload, s1) =>
    if payload.length > 0xFFFFFF then
      (.error (.Phase .PostFinish "payload too large for 24-bit frame".toList), s1)
    else
      let intro := if s1.sent_intro then [] else s1.intro_header
      (.ok (intro ++ [(payload.length >>> 16) &&& 0xFF, (payload.length >>> 8) &&& 0xFF,
                      payload.length &&& 0xFF] ++ payload),
       { s1 with sent_intro := true })

/-- The record-splitting loop of `NoiseMdState::decode_frames`
(src/wa/noise_md.rs:193-214); `fuel` bounds the iteration count (each
iteration drains at least 3 buffered bytes, so any fuel of at least the
buffer length makes the model total without changing its value). -/
def decode_frames_loop (C : NoiseCrypto) :
    Nat → NoiseMdState → List (List Nat) →
    Except HandshakeError (List (List Nat)) × NoiseMdState
  | 0, s, acc => (.ok acc.reverse, s)
  | fuel + 1, s, acc =>
    match s.frame_buffer with
    | b0 :: b1 :: b2 :: rest =>
      if rest.length < (b0 <<< 16) ||| (b1 <<< 8) ||| b2 then (.ok acc.reverse, s)
      else
        if s.transport.isSome then
          match NoiseMdState.decrypt_transport C
              { s with frame_buffer := rest.drop ((b0 <<< 16) ||| (b1 <<< 8) ||| b2) }
              (rest.take ((b0 <<< 16) ||| (b1 <<< 8) ||| b2)) with
          | (.ok decrypted, s2) => decode_frames_loop C fuel s2 (decrypted :: acc)
          | (.error e, s2) => (.error e, s2)
        else
          decode_frames_loop C fuel
            { s with frame_buffer := rest.drop ((b0 <<< 16) ||| (b1 <<< 8) ||| b2) }
            (rest.take ((b0 <<< 16) ||| (b1 <<< 8) ||| b2) :: acc)
    | _ => (.ok acc.reverse, s)

/-- `NoiseMdState::decode_frames` (src/wa/noise_md.rs:185-217). -/
def NoiseMdState.decode_frames (C : NoiseCrypto) (s : NoiseMdState) (chunk : List Nat) :
    Except HandshakeError (List (List Nat)) × NoiseMdState :=
  if chunk = [] then (.ok [], s)
  else
    decode_frames_loop C (s.frame_buffer.length + chunk.length + 1)
      { s with frame_buffer := s.frame_buffer ++ chunk } []

/-- Folding a sequence of handshake-phase operations (`.inl p` encrypts the
payload `p`, `.inr c` decrypts the ciphertext `c`); `none` when any
operation fails.  This is the "sequence of Noise records" of the claim. -/
def run_handshake_ops (C : NoiseCrypto) :
    NoiseMdState → List (List Nat ⊕ List Nat) → Option NoiseMdState
  | s, [] => some s
  | s, .inl p :: rest =>
    match s.encrypt_handshake C p with
    | (.ok _, s1) => run_handshake_ops C s1 rest
    | (.error _, _) => none
  | s, .inr c :: rest =>
    match s.decrypt_handshake C c with
    | (.ok _, s1) => run_handshake_ops C s1 rest
    | (.error _, _) => none

/-- Folding a sequence of transport-phase operations (`.inl` encrypts,
`.inr` decrypts). -/
def run_transport_ops (C : NoiseCrypto) :
    NoiseMdState → List (List Nat ⊕ List Nat) → Option NoiseMdState
  | s, [] => some s
  | s, .inl p :: rest =>
    match s.encrypt_transport C p with
    | (.ok _, s1) => run_transport_ops C s1 rest
    | (.error _, _) => none
  | s, .inr c :: rest =>
    match s.decrypt_transport C c with
    | (.ok _, s1) => run_transport_ops C s1 rest
    | (.error _, _) => none

/-- Number of `.inl` (encrypt) entries in an operation list. -/
def count_enc (ops : List (List Nat ⊕ List Nat)) : Nat :=
  ops.countP fun op => match op with | .inl _ => true | .inr _ => false

/-- Number of `.inr` (decrypt) entries in an operation list. -/
def count_dec (ops : List (List Nat ⊕ List Nat)) : Nat :=
  ops.countP fun op => match op with | .inl _ => false | .inr _ => true

lemma authenticate_counter (C : NoiseCrypto) (s : NoiseMdState) (x : List Nat) :
    (s.authenticate C x).counter = s.counter := by
  unfold NoiseMdState.authenticate
  split <;> rfl

lemma authenticate_transport (C : NoiseCrypto) (s : NoiseMdState) (x : List Nat) :
    (s.authenticate C x).transport = s.transport := by
  unfold NoiseMdState.authenticate
  split <;> rfl

lemma encrypt_handshake_ok_counter (C : NoiseCrypto) (s : NoiseMdState)
    (p ct : List Nat) (s' : NoiseMdState) (h : s.encrypt_handshake C p = (.ok ct, s')) :
    s'.counter = (s.counter + 1) % 2 ^ 32 := by
  unfold NoiseMdState.encrypt_handshake at h
  cases henc : C.aesEncrypt s.enc_key s.counter s.hash p with
  | error e => rw [henc] at h; simp at h
  | ok encrypted =>
    rw [henc] at h
    simp only [Prod.mk.injEq] at h
    rw [← h.2, authenticate_counter]

lemma decrypt_handshake_ok_counter (C : NoiseCrypto) (s : NoiseMdState)
    (c pt : List Nat) (s' : NoiseMdState) (h : s.decrypt_handshake C c = (.ok pt, s')) :
    s'.counter = (s.counter + 1) % 2 ^ 32 := by
  unfold NoiseMdState.decrypt_handshake at h
  cases hdec : C.aesDecrypt s.dec_key s.counter s.hash c with
  | error e => rw [hdec] at h; simp at h
  | ok decrypted =>
    rw [hdec] at h
    simp only [Prod.mk.injEq] at h
    rw [← h.2, authenticate_counter]

lemma run_handshake_ops_counter (C : NoiseCrypto) (ops : List (List Nat ⊕ List Nat)) :
    ∀ s s' : NoiseMdState, s.counter < 2 ^ 32 → run_handshake_ops C s ops = some s' →
      s'.counter = (s.counter + ops.length) % 2 ^ 32 := by
  induction ops with
  | nil =>
    intro s s' hlt h
    simp only [run_handshake_ops, Option.some.injEq] at h
    subst h
    simp only [List.length_nil, Nat.add_zero]
    omega
  | cons op rest ih =>
    intro s s' hlt h
    cases op with
    | inl p =>
      rw [run_handshake_ops] at h
      cases hstep : s.encrypt_handshake C p with
      | mk res s1 =>
        rw [hstep] at h
        cases res with
        | error e => simp at h
        | ok ct =>
          have hc1 : s1.counter = (s.counter + 1) % 2 ^ 32 :=
            encrypt_handshake_ok_counter C s p ct s1 hstep
          have hlt1 : s1.counter < 2 ^ 32 := by rw [hc1]; exact Nat.mod_lt _ (by norm_num)
          have hrun := ih s1 s' hlt1 h
          simp only [List.length_cons]
          omega
    | inr c =>
      rw [run_handshake_ops] at h
      cases hstep : s.decrypt_handshake C c with
      | mk res s1 =>
        rw [hstep] at h
        cases res with
        | error e => simp at h
        | ok pt =>
          have hc1 : s1.counter = (s.counter + 1) % 2 ^ 32 :=
            decrypt_handshake_ok_counter C s c pt s1 hstep
          have hlt1 : s1.counter < 2 ^ 32 := by rw [hc1]; exact Nat.mod_lt _ (by norm_num)
          have hrun := ih s1 s' hlt1 h
          simp only [List.length_cons]
          omega

lemma encrypt_transport_ok_counters (C : NoiseCrypto) (s : NoiseMdState) (t : TransportKeys)
    (p ct : List Nat) (s' : NoiseMdState) (ht : s.transport = some t)
    (h : s.encrypt_transport C p = (.ok ct, s')) :
    s'.transport = some { t with write_counter := (t.write_counter + 1) % 2 ^ 32 } := by
  unfold NoiseMdState.encrypt_transport at h
  split at h
  next heq => rw [ht] at heq; cases heq
  next t2 heq =>
    rw [ht] at heq
    injection heq with heq2
    subst heq2
    split at h
    · simp at h
    · simp only [Prod.mk.injEq] at h
      rw [← h.2]

lemma decrypt_transport_ok_counters (C : NoiseCrypto) (s : NoiseMdState) (t : TransportKeys)
    (c pt : List Nat) (s' : NoiseMdState) (ht : s.transport = some t)
    (h : s.decrypt_transport C c = (.ok pt, s')) :
    s'.transport = some { t with read_counter := (t.read_counter + 1) % 2 ^ 32 } := by
  unfold NoiseMdState.decrypt_transport at h
  split at h
  next heq => rw [ht] at heq; cases heq
  next t2 heq =>
    rw [ht] at heq
    injection heq with heq2
    subst heq2
    split at h
    · simp at h
    · simp only [Prod.mk.injEq] at h
      rw [← h.2]

lemma run_transport_ops_counters (C : NoiseCrypto) (ops : List (List Nat ⊕ List Nat)) :
    ∀ (s s' : NoiseMdState) (t : TransportKeys), s.transport = some t →
      t.write_counter < 2 ^ 32 → t.read_counter < 2 ^ 32 →
      run_transport_ops C s ops = some s' →
      ∃ t' : TransportKeys, s'.transport = some t' ∧
        t'.write_counter = (t.write_counter + count_enc ops) % 2 ^ 32 ∧
        t'.read_counter = (t.read_counter + count_dec ops) % 2 ^ 32 := by
  induction ops with
  | nil =>
    intro s s' t ht hw hr h
    simp only [run_transport_ops, Option.some.injEq] at h
    subst h
    refine ⟨t, ht, ?_, ?_⟩
    · simp only [count_enc, List.countP_nil, Nat.add_zero]
      omega
    · simp only [count_dec, List.countP_nil, Nat.add_zero]
      omega
  | cons op rest ih =>
    intro s s' t ht hw hr h
    cases op with
    | inl p =>
      rw [run_transport_ops] at h
      cases hstep : s.encrypt_transport C p with
      | mk res s1 =>
        rw [hstep] at h
        cases res with
        | error e => simp at h
        | ok ct =>
          have ht1 := encrypt_transport_ok_counters C s t p ct s1 ht hstep
          obtain ⟨t', ht', hw', hr'⟩ := ih s1 s'
            { t with write_counter := (t.write_counter + 1) % 2 ^ 32 } ht1
            (Nat.mod_lt _ (by norm_num)) hr h
          refine ⟨t', ht', ?_, ?_⟩
          · simp only [count_enc, List.countP_cons] at hw' ⊢
            simp only [if_pos] at hw' ⊢
            omega
          · simp only [count_dec, List.countP_cons] at hr' ⊢
            simp at hr' ⊢
            omega
    | inr c =>
      rw [run_transport_ops] at h
      cases hstep : s.decrypt_transport C c with
      | mk res s1 =>
        rw [hstep] at h
        cases res with
        | error e => simp at h
        | ok pt =>
          have ht1 := decrypt_transport_ok_counters C s t c pt s1 ht hstep
          obtain ⟨t', ht', hw', hr'⟩ := ih s1 s'
            { t with read_counter := (t.read_counter + 1) % 2 ^ 32 } ht1
            hw (Nat.mod_lt _ (by norm_num)) h
          refine ⟨t', ht', ?_, ?_⟩
          · simp only [count_enc, List.countP_cons] at hw' ⊢
            simp at hw' ⊢
            omega
          · simp only [count_dec, List.countP_cons] at hr' ⊢
            simp only [if_pos] at hr' ⊢
            omega

lemma encrypt_transport_hash (C : NoiseCrypto) (s : NoiseMdState) (p : List Nat) :
    (s.encrypt_transport C p).2.hash = s.hash ∧
    (s.encrypt_transport C p).2.transport.isSome = s.transport.isSome := by
  unfold NoiseMdState.encrypt_transport
  split
  · exact ⟨rfl, rfl⟩
  next t heq =>
    split
    · exact ⟨rfl, rfl⟩
    · exact ⟨rfl, by simp [heq]⟩

lemma decrypt_transport_hash (C : NoiseCrypto) (s : NoiseMdState) (c : List Nat) :
    (s.decrypt_transport C c).2.hash = s.hash ∧
    (s.decrypt_transport C c).2.transport.isSome = s.transport.isSome := by
  unfold NoiseMdState.decrypt_transport
  split
  · exact ⟨rfl, rfl⟩
  next t heq =>
    split
    · exact ⟨rfl, rfl⟩
    · exact ⟨rfl, by simp [heq]⟩

lemma decode_frames_loop_hash (C : NoiseCrypto) :
    ∀ (fuel : Nat) (s : NoiseMdState) (acc : List (List Nat)),
      (decode_frames_loop C fuel s acc).2.hash = s.hash ∧
      (decode_frames_loop C fuel s acc).2.transport.isSome = s.transport.isSome := by
  intro fuel
  induction fuel with
  | zero => intro s acc; exact ⟨rfl, rfl⟩
  | succ fuel ih =>
    intro s acc
    rw [decode_frames_loop]
    split
    next b0 b1 b2 rest hbuf =>
      split
      next hlen => exact ⟨rfl, rfl⟩
      next hlen =>
        split
        next htr =>
          split
          next decrypted s2 hstep =>
            have hd := decrypt_transport_hash C
              { s with frame_buffer := rest.drop ((b0 <<< 16) ||| (b1 <<< 8) ||| b2) }
              (rest.take ((b0 <<< 16) ||| (b1 <<< 8) ||| b2))
            rw [hstep] at hd
            have hr := ih s2 (decrypted :: acc)
            exact ⟨hr.1.trans hd.1, hr.2.trans hd.2⟩
          next e s2 hstep =>
            have hd := decrypt_transport_hash C
              { s with frame_buffer := rest.drop ((b0 <<< 16) ||| (b1 <<< 8) ||| b2) }
              (rest.take ((b0 <<< 16) ||| (b1 <<< 8) ||| b2))
            rw [hstep] at hd
            exact ⟨hd.1, hd.2⟩
        next htr =>
          exact ih { s with frame_buffer := rest.drop ((b0 <<< 16) ||| (b1 <<< 8) ||| b2) }
            (rest.take ((b0 <<< 16) ||| (b1 <<< 8) ||| b2) :: acc)
    next => exact ⟨rfl, rfl⟩

/-- C5: the handshake hash is frozen after `finish_init`.  Before transport
keys exist, `authenticate x` replaces the hash with `SHA-256(hash ++ x)`;
once `finish_init` has installed transport keys (which it always does, and
without touching the hash), `authenticate` is the identity, and both
`encode_frame` and `decode_frames` leave the hash unchanged while keeping
the transport keys installed. -/
theorem noise_hash_frozen_spec :
    (∀ (C : NoiseCrypto) (s : NoiseMdState) (x : List Nat),
      s.transport = none → (s.authenticate C x).hash = C.sha256 (s.hash ++ x)) ∧
    (∀ (C : NoiseCrypto) (s : NoiseMdState) (x : List Nat),
      s.transport.isSome = true → s.authenticate C x = s) ∧
    (∀ (C : NoiseCrypto) (s : NoiseMdState),
      (s.finish_init C).transport.isSome = true ∧ (s.finish_init C).hash = s.hash) ∧
    (∀ (C : NoiseCrypto) (s : NoiseMdState) (d : List Nat),
      s.transport.isSome = true →
      (s.encode_frame C d).2.hash = s.hash ∧
      (s.encode_frame C d).2.transport.isSome = true) ∧
    (∀ (C : NoiseCrypto) (s : NoiseMdState) (chunk : List Nat),
      s.transport.isSome = true →
      (s.decode_frames C chunk).2.hash = s.hash ∧
      (s.decode_frames C chunk).2.transport.isSome = true) := by
  refine ⟨?_, ?_, ?_, ?_, ?_⟩
  · intro C s x hnone
    unfold NoiseMdState.authenticate
    rw [if_pos (by simp [hnone])]
  · intro C s x hsome
    unfold NoiseMdState.authenticate
    rw [if_neg]
    intro hnone
    rw [Option.isNone_iff_eq_none] at hnone
    rw [hnone] at hsome
    simp at hsome
  · intro C s
    exact ⟨rfl, rfl⟩
  · intro C s d hsome
    unfold NoiseMdState.encode_frame
    rw [hsome, if_pos rfl]
    split
    next e s1 heq =>
      have he := encrypt_transport_hash C s d
      rw [heq] at he
      exact ⟨he.1, he.2.trans hsome⟩
    next payload s1 heq =>
      have he := encrypt_transport_hash C s d
      rw [heq] at he
      split
      · exact ⟨he.1, he.2.trans hsome⟩
      · exact ⟨he.1, he.2.trans hsome⟩
  · intro C s chunk hsome
    unfold NoiseMdState.decode_frames
    by_cases hchunk : chunk = []
    · rw [if_pos hchunk]
      exact ⟨rfl, hsome⟩
    · rw [if_neg hchunk]
      have hl := decode_frames_loop_hash C (s.frame_buffer.length + chunk.length + 1)
        { s with frame_buffer := s.frame_buffer ++ chunk } []
      exact ⟨hl.1, hl.2.trans hsome⟩

/-- A trivial instantiation of the cryptographic collaborators, used for
concrete witnesses: SHA-256 returning the empty digest and AEAD returning
its message unchanged. -/
def trivialNoiseCrypto : NoiseCrypto :=
  { sha256 := fun _ => []
    hkdf64 := fun _ _ => List.replicate 64 0
    aesEncrypt := fun _ _ _ msg => .ok msg
    aesDecrypt := fun _ _ _ msg => .ok msg }

/-- A fresh handshake-phase state with counter 0, used for witnesses. -/
def zeroNoiseState : NoiseMdState :=
  { hash := [], salt := [], enc_key := [], dec_key := [], counter := 0,
    intro_header := [87, 65, 6, 3], sent_intro := false, frame_buffer := [],
    transport := none }

/-- A handshake-phase state whose counter sits at `u32::MAX`. -/
def wrapNoiseState : NoiseMdState :=
  { hash := [], salt := [], enc_key := [], dec_key := [], counter := 2 ^ 32 - 1,
    intro_header := [87, 65, 6, 3], sent_intro := false, frame_buffer := [],
    transport := none }

/-- C4 counterexample: the counters are wrapping `u32`s, so a successful
handshake encrypt at counter `2^32 - 1` resets the counter to 0 instead of
incrementing it by one — after `2^32` records the counter no longer equals
the number of records processed. -/
theorem noise_counter_wrap :
    (wrapNoiseState.encrypt_handshake trivialNoiseCrypto []).1 = .ok [] ∧
    (wrapNoiseState.encrypt_handshake trivialNoiseCrypto []).2.counter = 0 ∧
    wrapNoiseState.counter + 1 ≠ 0 := by
  refine ⟨rfl, ?_, by decide⟩
  show (2 ^ 32 - 1 + 1) % 2 ^ 32 = 0
  norm_num

/-- C4 (amended): `mix_into_key` resets the handshake counter to zero and
`finish_init` installs transport counters at zero; every successful
handshake-phase encrypt or decrypt steps the counter by one modulo `2^32`
(it is a wrapping `u32`), and transport encrypts/decrypts step
`write_counter`/`read_counter` likewise; hence after any successful sequence
of operations each counter equals the number of records processed in its
direction since the last `mix_into_key`/`finish_init`, modulo `2^32`. -/
theorem noise_counter_spec :
    (∀ (C : NoiseCrypto) (s : NoiseMdState) (ikm : List Nat),
      (s.mix_into_key C ikm).counter = 0) ∧
    (∀ (C : NoiseCrypto) (s : NoiseMdState),
      (s.finish_init C).transport.map TransportKeys.write_counter = some 0 ∧
      (s.finish_init C).transport.map TransportKeys.read_counter = some 0) ∧
    (∀ (C : NoiseCrypto) (s : NoiseMdState) (p ct : List Nat) (s' : NoiseMdState),
      s.encrypt_handshake C p = (.ok ct, s') → s'.counter = (s.counter + 1) % 2 ^ 32) ∧
    (∀ (C : NoiseCrypto) (s : NoiseMdState) (c pt : List Nat) (s' : NoiseMdState),
      s.decrypt_handshake C c = (.ok pt, s') → s'.counter = (s.counter + 1) % 2 ^ 32) ∧
    (∀ (C : NoiseCrypto) (s : NoiseMdState) (ikm : List Nat)
        (ops : List (List Nat ⊕ List Nat)) (s' : NoiseMdState),
      run_handshake_ops C (s.mix_into_key C ikm) ops = some s' →
      s'.counter = ops.length % 2 ^ 32) ∧
    (∀ (C : NoiseCrypto) (s : NoiseMdState) (ops : List (List Nat ⊕ List Nat))
        (s' : NoiseMdState),
      run_transport_ops C (s.finish_init C) ops = some s' →
      ∃ t' : TransportKeys, s'.transport = some t' ∧
        t'.write_counter = count_enc ops % 2 ^ 32 ∧
        t'.read_counter = count_dec ops % 2 ^ 32) := by
  refine ⟨fun C s ikm => rfl, fun C s => ⟨rfl, rfl⟩,
    encrypt_handshake_ok_counter, decrypt_handshake_ok_counter, ?_, ?_⟩
  · intro C s ikm ops s' h
    have := run_handshake_ops_counter C ops (s.mix_into_key C ikm) s' (by norm_num [NoiseMdState.mix_into_key]) h
    simpa [NoiseMdState.mix_into_key] using this
  · intro C s ops s' h
    have := run_transport_ops_counters C ops (s.finish_init C) s'
      { enc_key := ((s.finish_init C).local_hkdf C []).1,
        dec_key := ((s.finish_init C).local_hkdf C []).2,
        write_counter := 0, read_counter := 0 } ?_ (by norm_num) (by norm_num) h
    · simpa using this
    · rfl

/-- Witness for `noise_counter_spec`: one successful handshake encrypt from a
fresh state steps the counter from 0 to 1. -/
theorem noise_counter_spec_witness :
    zeroNoiseState.encrypt_handshake trivialNoiseCrypto [] =
        (.ok [], { zeroNoiseState with counter := 1 }) ∧
      ({ zeroNoiseState with counter := 1 } : NoiseMdState).counter =
        (zeroNoiseState.counter + 1) % 2 ^ 32 := by
  have hstep : zeroNoiseState.encrypt_handshake trivialNoiseCrypto [] =
      (.ok [], { zeroNoiseState with counter := 1 }) := by
    show (Except.ok [],
        NoiseMdState.authenticate trivialNoiseCrypto
          { zeroNoiseState with counter := (0 + 1) % 2 ^ 32 } []) =
      (.ok [], { zeroNoiseState with counter := 1 })
    norm_num [NoiseMdState.authenticate, zeroNoiseState, trivialNoiseCrypto]
  exact ⟨hstep,
    noise_counter_spec.2.2.1 trivialNoiseCrypto zeroNoiseState [] []
      { zeroNoiseState with counter := 1 } hstep⟩

/-- Witness for `noise_hash_frozen_spec`: before `finish_init` an
`authenticate` call chains the hash. -/
theorem noise_hash_frozen_spec_witness :
    zeroNoiseState.transport = none ∧
      (zeroNoiseState.authenticate trivialNoiseCrypto [1]).hash =
        trivialNoiseCrypto.sha256 (zeroNoiseState.hash ++ [1]) :=
  ⟨rfl, noise_hash_frozen_spec.1 trivialNoiseCrypto zeroNoiseState [1] rfl⟩

/-- The byte content of an ASCII string literal. -/
def strBytes (s : String) : List Nat := s.toList.map Char.toNat

/-- Modelled from the spec: the contents of `SINGLE_BYTE_TOKENS`
(`src/wa/wabinary_tokens.rs` is declared in `src/wa/mod.rs` but absent from
`src/`).  Spec §4.3 specifies "a single-byte dictionary of ≈ 256 common tags"
whose valid indices must stop below the dictionary tags 236-239, without
listing its entries; we model a dictionary of exactly 236 entries with index
0 unused and representative protocol tokens at the low indices. -/
def SINGLE_BYTE_TOKENS_BASE : List String :=
  ["", "iq", "message", "ack", "receipt", "presence", "chatstate", "notification",
   "call", "ib", "success", "failure", "stream:error", "pair-device", "pair-success",
   "ref", "device", "device-identity", "edge_routing", "type", "result", "error",
   "to", "from", "id", "class", "xmlns", "jid", "s.whatsapp.net", "g.us",
   "broadcast", "lid", "participant", "text", "media", "set", "get", "urn:xmpp:ping",
   "available", "unavailable", "composing", "paused", "status"]

/-- Modelled from the spec: the single-byte token dictionary as byte strings,
padded with empty entries to its fixed size of 236. -/
def SINGLE_BYTE_TOKENS : List (List Nat) :=
  SINGLE_BYTE_TOKENS_BASE.map strBytes ++
    List.replicate (236 - SINGLE_BYTE_TOKENS_BASE.length) []

/-- Modelled from the spec: the four secondary dictionaries selected by tags
236-239 (spec §4.3); their entries are likewise not listed by the spec, so we
model four small representative rows. -/
def DOUBLE_BYTE_TOKENS : List (List (List Nat)) :=
  [["history", "app_state_sync_key", "sender_key_memory"].map strBytes,
   ["media_retry", "syncd_snapshot", "server_sync"].map strBytes,
   ["identity", "account_sync", "privacy_token"].map strBytes,
   ["placeholder_resend", "poll_update", "reaction_enc"].map strBytes]

/-- First index in a token row holding exactly `s` (the modelled tables are
duplicate-free on non-empty entries, so first-match agrees with the
last-insert-wins `HashMap` built by `wa_token_map`). -/
def findTokenIdxAux (s : List Nat) : List (List Nat) → Option Nat
  | [] => none
  | t :: ts => if t = s then some 0 else (findTokenIdxAux s ts).map (· + 1)

/-- First (dictionary, index) pair in the secondary dictionaries holding `s`. -/
def findDoubleIdxAux (s : List Nat) : List (List (List Nat)) → Option (Nat × Nat)
  | [] => none
  | row :: rows =>
    match findTokenIdxAux s row with
    | some i => some (0, i)
    | none => (findDoubleIdxAux s rows).map (fun p => (p.1 + 1, p.2))

/-- `WaTokenIndex` (src/wa/binary_node.rs:280-284). -/
structure WaTokenIndex where
  dict : Option Nat
  index : Nat
  deriving DecidableEq, Repr

/-- `wa_token_map().get(value)` (src/wa/binary_node.rs:286-312): the map is
built from the single-byte table and then the double-byte tables (later
inserts shadowing earlier ones), so double-byte entries take precedence. -/
def wa_token_lookup (s : List Nat) : Option WaTokenIndex :=
  match findDoubleIdxAux s DOUBLE_BYTE_TOKENS with
  | some (d, i) => some { dict := some d, index := i }
  | none =>
    match findTokenIdxAux s SINGLE_BYTE_TOKENS with
    | some i => some { dict := none, index := i }
    | none => none

/-- Whether a byte is a UTF-8 continuation byte. -/
def isUtf8Cont (b : Nat) : Bool := 0x80 ≤ b && b ≤ 0xBF

/-- Number of continuation bytes required after the leading byte `b`
(5 marks an invalid leading byte). -/
def utf8Need (b : Nat) : Nat :=
  if b ≤ 0x7F then 0
  else if 0xC2 ≤ b && b ≤ 0xDF then 1
  else if 0xE0 ≤ b && b ≤ 0xEF then 2
  else if 0xF0 ≤ b && b ≤ 0xF4 then 3
  else 5

/-- Validity range of the first continuation byte given the leading byte
(RFC 3629: overlong, surrogate and out-of-range exclusions). -/
def utf8SecondOk (b c1 : Nat) : Bool :=
  if b = 0xE0 then 0xA0 ≤ c1 && c1 ≤ 0xBF
  else if b = 0xED then 0x80 ≤ c1 && c1 ≤ 0x9F
  else if b = 0xF0 then 0x90 ≤ c1 && c1 ≤ 0xBF
  else if b = 0xF4 then 0x80 ≤ c1 && c1 ≤ 0x8F
  else isUtf8Cont c1

/-- Validity of the continuation-byte block following leading byte `b`:
the first continuation byte obeys the lead-byte-specific range, the others
are plain continuation bytes. -/
def utf8ContOk (b : Nat) : List Nat → Bool
  | [] => true
  | c1 :: cs => utf8SecondOk b c1 && cs.all isUtf8Cont

/-- RFC 3629 UTF-8 validity with explicit fuel; each step consumes at least
one byte, so fuel equal to the length always suffices. -/
def validUtf8Fuel : Nat → List Nat → Bool
  | _, [] => true
  | 0, _ :: _ => false
  | f + 1, b :: rest =>
    if utf8Need b = 0 then validUtf8Fuel f rest
    else if utf8Need b ≤ 3 then
      if rest.length < utf8Need b then false
      else utf8ContOk b (rest.take (utf8Need b)) && validUtf8Fuel f (rest.drop (utf8Need b))
    else false

/-- RFC 3629 UTF-8 validity of a byte sequence (the check performed by Rust
`String::from_utf8`). -/
def validUtf8 (l : List Nat) : Bool := validUtf8Fuel l.length l

instance {ε α : Type} [DecidableEq ε] [DecidableEq α] : DecidableEq (Except ε α) := fun a b =>
  match a, b with
  | .ok x, .ok y =>
    if h : x = y then .isTrue (by rw [h])
    else .isFalse (by intro hc; injection hc; exact h (by assumption))
  | .error x, .error y =>
    if h : x = y then .isTrue (by rw [h])
    else .isFalse (by intro hc; injection hc; exact h (by assumption))
  | .ok _, .error _ => .isFalse (by intro hc; exact Except.noConfusion hc)
  | .error _, .ok _ => .isFalse (by intro hc; exact Except.noConfusion hc)

/-- Rust `String::from_utf8` on model byte strings. -/
def string_from_utf8 (bs : List Nat) : Except BinaryNodeError (List Nat) :=
  if validUtf8 bs then .ok bs else .error .InvalidUtf8

/-- ASCII decimal digit test on bytes. -/
def isAsciiDigitB (b : Nat) : Bool := 48 ≤ b && b ≤ 57

/-- Rust `str::parse::<uN>` on the byte string: optional leading `+`, at
least one digit, value at most `bound`. -/
def parse_nat_ascii (bs : List Nat) (bound : Nat) : Option Nat :=
  let digits := match bs with
    | 43 :: rest => rest
    | other => other
  if digits = [] ∨ ¬ digits.all isAsciiDigitB then none
  else
    let v := digits.foldl (fun acc b => acc * 10 + (b - 48)) 0
    if v ≤ bound then some v else none

/-- Rust `str::split_once` at the byte `sep`. -/
def split_once (sep : Nat) : List Nat → Option (List Nat × List Nat)
  | [] => none
  | b :: rest =>
    if b = sep then some ([], rest)
    else
      match split_once sep rest with
      | some (pre, post) => some (b :: pre, post)
      | none => none

/-- The decimal rendering used by `format!("{n}")`. -/
def natDecimalBytes (n : Nat) : List Nat := (Nat.toDigits 10 n).map Char.toNat

/-- `DecodedJid` (src/wa/binary_node.rs:885-891). -/
structure DecodedJid where
  user : List Nat
  server : List Nat
  device : Option Nat
  domain_type : Nat
  deriving DecidableEq, Repr

/-- The tail of `jid_decode` past the device parse: splits the agent suffix
and derives the domain type (src/wa/binary_node.rs:902-921). -/
def jid_decode_rest (user_agent server : List Nat) (device : Option Nat) : DecodedJid :=
  let user := match split_once 95 user_agent with
    | some (u, _) => u
    | none => user_agent
  let agent := match split_once 95 user_agent with
    | some (_, a) => some a
    | none => none
  let domain_type :=
    if server = strBytes "lid" then 1
    else if server = strBytes "hosted" then 128
    else if server = strBytes "hosted.lid" then 129
    else match agent with
      | some raw =>
        match parse_nat_ascii raw 255 with
        | some v => v
        | none => 0
      | none => 0
  { user := user, server := server, device := device, domain_type := domain_type }

/-- `jid_decode` (src/wa/binary_node.rs:893-921); `'@' = 64`, `':' = 58`,
`'_' = 95`. -/
def jid_decode (value : List Nat) : Option DecodedJid :=
  match split_once 64 value with
  | none => none
  | some (user_part, server) =>
    match split_once 58 user_part with
    | some (ua, dev) =>
      match parse_nat_ascii dev 65535 with
      | none => none
      | some parsed => some (jid_decode_rest ua server (some parsed))
    | none => some (jid_decode_rest user_part server none)

/-- `jid_encode` (src/wa/binary_node.rs:923-929). -/
def jid_encode (user server : List Nat) (device : Option Nat) : List Nat :=
  match device with
  | some d => user ++ [58] ++ natDecimalBytes d ++ [64] ++ server
  | none => user ++ [64] ++ server

/-- `unpack_hex` (src/wa/binary_node.rs:819-825). -/
def unpack_hex (v : Nat) : Except BinaryNodeError Nat :=
  if v ≤ 9 then .ok (48 + v)
  else if v ≤ 15 then .ok (65 + (v - 10))
  else .error (.InvalidPackedChar v)

/-- `unpack_nibble` (src/wa/binary_node.rs:827-835). -/
def unpack_nibble (v : Nat) : Except BinaryNodeError Nat :=
  if v ≤ 9 then .ok (48 + v)
  else if v = 10 then .ok 45
  else if v = 11 then .ok 46
  else if v = 15 then .ok 0
  else .error (.InvalidPackedChar v)

/-- `unpack_byte` (src/wa/binary_node.rs:837-843); tag 255 = Nibble8,
251 = Hex8. -/
def unpack_byte (tag v : Nat) : Except BinaryNodeError Nat :=
  if tag = 255 then unpack_nibble v
  else if tag = 251 then unpack_hex v
  else .error (.InvalidListTag tag)

/-- `pack_char` (src/wa/binary_node.rs:845-863) on the string bytes (the
packed paths only operate on ASCII strings, where Rust `char`s coincide with
bytes). -/
def pack_char (b tag : Nat) : Except BinaryNodeError Nat :=
  if tag = 255 then
    if 48 ≤ b ∧ b ≤ 57 then .ok (b - 48)
    else if b = 45 then .ok 10
    else if b = 46 then .ok 11
    else if b = 0 then .ok 15
    else .error (.InvalidPackedChar b)
  else if tag = 251 then
    if 48 ≤ b ∧ b ≤ 57 then .ok (b - 48)
    else if 65 ≤ b ∧ b ≤ 70 then .ok (10 + (b - 65))
    else if 97 ≤ b ∧ b ≤ 102 then .ok (10 + (b - 97))
    else if b = 0 then .ok 15
    else .error (.InvalidPackedChar b)
  else .error (.InvalidListTag tag)

/-- `is_nibble` (src/wa/binary_node.rs:865-873). -/
def is_nibble (value : List Nat) : Bool :=
  if value = [] || value.length > 127 then false
  else value.all fun b => isAsciiDigitB b || b == 45 || b == 46

/-- `is_hex` (src/wa/binary_node.rs:875-883). -/
def is_hex (value : List Nat) : Bool :=
  if value = [] || value.length > 127 then false
  else value.all fun b => isAsciiDigitB b || (65 ≤ b && b ≤ 70)

/- `BinaryNode` / `NodeContent` (src/wa/binary_node.rs:15-35).  Strings are
their byte contents; the `HashMap` of attributes is represented by an
association list (canonically the strictly key-sorted one, which is the
unique list representation of a `HashMap`), and `Vec<BinaryNode>` by the
companion list type `NodeList`. -/
mutual
inductive BinaryNode where
  | node (tag : List Nat) (attrs : List (List Nat × List Nat)) (content : NodeContent)
  deriving DecidableEq, Repr
inductive NodeContent where
  | nodes (children : NodeList)
  | bytesContent (payload : List Nat)
  | empty
  deriving DecidableEq, Repr
inductive NodeList where
  | nil
  | cons (head : BinaryNode) (tail : NodeList)
  deriving DecidableEq, Repr
end

/-- Number of children in a `NodeList`. -/
def NodeList.length : NodeList → Nat
  | .nil => 0
  | .cons _ t => t.length + 1

/-- The tag of a node. -/
def BinaryNode.tag : BinaryNode → List Nat
  | .node tag _ _ => tag

/-- The attributes of a node. -/
def BinaryNode.attrs : BinaryNode → List (List Nat × List Nat)
  | .node _ attrs _ => attrs

/-- Rust `Ord` comparison of strings (byte-lexicographic, shorter prefix
first). -/
def lexCmp : List Nat → List Nat → Ordering
  | [], [] => .eq
  | [], _ :: _ => .lt
  | _ :: _, [] => .gt
  | x :: xs, y :: ys => if x < y then .lt else if y < x then .gt else lexCmp xs ys

/-- The key order used by `attrs.sort_by(|(a, _), (b, _)| a.cmp(b))`. -/
def attrLe (p q : List Nat × List Nat) : Prop := lexCmp p.1 q.1 ≠ .gt

instance : DecidableRel attrLe := fun p q => by
  unfold attrLe
  infer_instance

/-- The stable sort of attribute pairs by key performed by
`RealEncoder::encode_node` (src/wa/binary_node.rs:641-642). -/
def sort_attrs (attrs : List (List Nat × List Nat)) : List (List Nat × List Nat) :=
  attrs.insertionSort attrLe

/-- Whether the node content is present (`!matches!(content, Empty)`). -/
def contentPresent : NodeContent → Bool
  | .empty => false
  | _ => true

/-- The big-endian bytes written by `RealEncoder::push_int`
(src/wa/binary_node.rs:630-634). -/
def push_int_bytes (value n : Nat) : List Nat :=
  (List.range n).reverse.map fun i => (value >>> (i * 8)) &&& 0xFF

/-- `RealEncoder::write_list_start` (src/wa/binary_node.rs:672-688); tags:
0 = ListEmpty, 248 = List8, 249 = List16. -/
def write_list_start (size : Nat) : Except BinaryNodeError (List Nat) :=
  if size = 0 then .ok [0]
  else if size < 256 then .ok [248, size]
  else if size ≤ 65535 then .ok [249, size >>> 8, size &&& 0xFF]
  else .error .PayloadTooLarge

/-- `RealEncoder::write_byte_length` (src/wa/binary_node.rs:690-709); tags:
252 = Binary8, 253 = Binary20, 254 = Binary32. -/
def write_byte_length (length : Nat) : Except BinaryNodeError (List Nat) :=
  if length ≥ 2 ^ 32 then .error .PayloadTooLarge
  else if length ≥ 2 ^ 20 then .ok (254 :: push_int_bytes length 4)
  else if length ≥ 256 then
    .ok [253, (length >>> 16) &&& 0x0F, (length >>> 8) &&& 0xFF, length &&& 0xFF]
  else .ok [252, length]

/-- `RealEncoder::write_string_raw` (src/wa/binary_node.rs:743-748). -/
def write_string_raw (value : List Nat) : Except BinaryNodeError (List Nat) :=
  (write_byte_length value.length).map (· ++ value)

/-- The `chars.chunks(2)` loop of `RealEncoder::write_packed_bytes`
(src/wa/binary_node.rs:783-792). -/
def pack_pairs (tag : Nat) : List Nat → Except BinaryNodeError (List Nat)
  | [] => .ok []
  | [c] => do
    let l ← pack_char c tag
    pure [(l <<< 4) ||| 0x0F]
  | c1 :: c2 :: rest => do
    let l ← pack_char c1 tag
    let r ← pack_char c2 tag
    let more ← pack_pairs tag rest
    pure (((l <<< 4) ||| r) :: more)

/-- `RealEncoder::write_packed_bytes` (src/wa/binary_node.rs:770-795). -/
def write_packed_bytes (value : List Nat) (tag : Nat) : Except BinaryNodeError (List Nat) :=
  if value.length > 127 then .error .SymbolTooLong
  else do
    let rounded :=
      if value.length % 2 ≠ 0 then (value.length + 1) / 2 ||| 0x80
      else (value.length + 1) / 2
    let packed ← pack_pairs tag value
    pure (tag :: rounded :: packed)

/-- `RealEncoder::write_string` together with the inlined
`RealEncoder::write_jid` (src/wa/binary_node.rs:711-768), with explicit fuel
for the recursion into JID components; each recursive call is on a strict
substring, so any fuel of at least `value.length + 1` makes the model total
without changing its value.  Tags: 247 = AdJid, 250 = JidPair,
236 = Dictionary0, 251 = Hex8, 255 = Nibble8. -/
def write_string_fuel : Nat → List Nat → Except BinaryNodeError (List Nat)
  | 0, _ => .error (.InvalidFrame "write fuel exhausted")
  | fuel + 1, value =>
    if value = [] then write_string_raw value
    else
      match wa_token_lookup value with
      | some token =>
        match token.dict with
        | some d => .ok [236 + d, token.index]
        | none => .ok [token.index]
      | none =>
        if is_nibble value then write_packed_bytes value 255
        else if is_hex value then write_packed_bytes value 251
        else
          match jid_decode value with
          | some jid =>
            match jid.device with
            | some device =>
              if 256 ≤ device then .error (.InvalidFrame "jid device id overflow")
              else
                (write_string_fuel fuel jid.user).map
                  (fun user => [247, jid.domain_type, device] ++ user)
            | none => do
              let user ←
                if jid.user = [] then pure [0] else write_string_fuel fuel jid.user
              let server ← write_string_fuel fuel jid.server
              pure (250 :: (user ++ server))
          | none => write_string_raw value

/-- `RealEncoder::write_string` at its canonical fuel. -/
def write_string (value : List Nat) : Except BinaryNodeError (List Nat) :=
  write_string_fuel (value.length + 1) value

/- `RealEncoder::encode_node` (src/wa/binary_node.rs:636-670), split into
the mutual encoders for a node, its attribute pairs, its content, and a
child list. -/
mutual
def encodeNode : BinaryNode → Except BinaryNodeError (List Nat)
  | .node tag attrs content =>
    if tag = [] then .error (.InvalidFrame "node tag cannot be empty")
    else do
      let listStart ←
        write_list_start (attrs.length * 2 + 1 + (if contentPresent content then 1 else 0))
      let tagBytes ← write_string tag
      let attrBytes ← encodeAttrs (sort_attrs attrs)
      let contentBytes ← encodeContent content
      pure (listStart ++ tagBytes ++ attrBytes ++ contentBytes)

def encodeAttrs : List (List Nat × List Nat) → Except BinaryNodeError (List Nat)
  | [] => pure []
  | (k, v) :: rest => do
    let kb ← write_string k
    let vb ← write_string v
    let more ← encodeAttrs rest
    pure (kb ++ vb ++ more)

def encodeContent : NodeContent → Except BinaryNodeError (List Nat)
  | .empty => pure []
  | .bytesContent payload => do
    let lb ← write_byte_length payload.length
    pure (lb ++ payload)
  | .nodes children => do
    let ls ← write_list_start children.length
    let cb ← encodeNodes children
    pure (ls ++ cb)

def encodeNodes : NodeList → Except BinaryNodeError (List Nat)
  | .nil => pure []
  | .cons h t => do
    let hb ← encodeNode h
    let tb ← encodeNodes t
    pure (hb ++ tb)
end

/-- `encode_real` (src/wa/binary_node.rs:82-87): a leading `0x00`
compression byte followed by the node encoding. -/
def encode_real (node : BinaryNode) : Except BinaryNodeError (List Nat) :=
  (encodeNode node).map (0 :: ·)

/-- `RealDecoder::read_byte` (src/wa/binary_node.rs:569-577). -/
def read_byte : List Nat → Except BinaryNodeError (Nat × List Nat)
  | [] => .error .UnexpectedEof
  | b :: rest => .ok (b, rest)

/-- `RealDecoder::read_bytes` (src/wa/binary_node.rs:594-606). -/
def read_bytes (n : Nat) (input : List Nat) : Except BinaryNodeError (List Nat × List Nat) :=
  if n ≤ input.length then .ok (input.take n, input.drop n)
  else .error .UnexpectedEof

/-- The accumulator loop of `RealDecoder::read_int`. -/
def read_int_aux : Nat → Nat → List Nat → Except BinaryNodeError (Nat × List Nat)
  | 0, acc, input => .ok (acc, input)
  | n + 1, acc, input =>
    match input with
    | [] => .error .UnexpectedEof
    | b :: rest => read_int_aux n ((acc <<< 8) ||| b) rest

/-- `RealDecoder::read_int` (src/wa/binary_node.rs:579-585). -/
def read_int (n : Nat) (input : List Nat) : Except BinaryNodeError (Nat × List Nat) :=
  read_int_aux n 0 input

/-- `RealDecoder::read_int20` (src/wa/binary_node.rs:587-592). -/
def read_int20 (input : List Nat) : Except BinaryNodeError (Nat × List Nat) :=
  match input with
  | a :: b :: c :: rest => .ok (((a &&& 0x0F) <<< 16) ||| (b <<< 8) ||| c, rest)
  | _ => .error .UnexpectedEof

/-- `RealDecoder::read_list_size` (src/wa/binary_node.rs:439-446). -/
def read_list_size (tag : Nat) (input : List Nat) : Except BinaryNodeError (Nat × List Nat) :=
  if tag = 0 then .ok (0, input)
  else if tag = 248 then read_byte input
  else if tag = 249 then read_int 2 input
  else .error (.InvalidListTag tag)

/-- `RealDecoder::is_list_tag` (src/wa/binary_node.rs:426-428). -/
def is_list_tag (tag : Nat) : Bool := tag == 0 || tag == 248 || tag == 249

/-- The unpacking loop of `RealDecoder::read_packed_8`
(src/wa/binary_node.rs:495-501). -/
def read_packed_aux (tag : Nat) : Nat → List Nat → Except BinaryNodeError (List Nat × List Nat)
  | 0, input => .ok ([], input)
  | n + 1, input =>
    match input with
    | [] => .error .UnexpectedEof
    | cur :: rest => do
      let hi ← unpack_byte tag ((cur &&& 0xF0) >>> 4)
      let lo ← unpack_byte tag (cur &&& 0x0F)
      let (more, rest2) ← read_packed_aux tag n rest
      pure (hi :: lo :: more, rest2)

/-- `RealDecoder::read_packed_8` (src/wa/binary_node.rs:493-508). -/
def read_packed_8 (tag : Nat) (input : List Nat) : Except BinaryNodeError (List Nat × List Nat) := do
  let (start, rest) ← read_byte input
  let (out, rest2) ← read_packed_aux tag (start &&& 0x7F) rest
  let out2 := if start >>> 7 ≠ 0 then out.dropLast else out
  match string_from_utf8 out2 with
  | .ok s => .ok (s, rest2)
  | .error e => .error e

/-- `RealDecoder::read_string` with the JID readers inlined
(src/wa/binary_node.rs:448-567), fuelled for the recursion into JID
components; each recursive call happens after consuming at least one byte,
so any fuel of at least `input.length + 1` makes the model total without
changing its value. -/
def read_string_fuel : Nat → Nat → List Nat → Except BinaryNodeError (List Nat × List Nat)
  | 0, _, _ => .error (.InvalidFrame "read fuel exhausted")
  | fuel + 1, tag, input =>
    if 1 ≤ tag ∧ tag < SINGLE_BYTE_TOKENS.length then
      .ok (SINGLE_BYTE_TOKENS.getD tag [], input)
    else if 236 ≤ tag ∧ tag ≤ 239 then do
      let (index, rest) ← read_byte input
      match DOUBLE_BYTE_TOKENS[tag - 236]? with
      | none => .error (.UnknownTokenDictionary (tag - 236))
      | some dict =>
        match dict[index]? with
        | none => .error (.UnknownDoubleToken (tag - 236) index)
        | some value => .ok (value, rest)
    else if tag = 0 then .ok ([], input)
    else if tag = 252 then do
      let (len, rest) ← read_byte input
      let (value, rest2) ← read_bytes len rest
      match string_from_utf8 value with
      | .ok s => .ok (s, rest2)
      | .error e => .error e
    else if tag = 253 then do
      let (len, rest) ← read_int20 input
      let (value, rest2) ← read_bytes len rest
      match string_from_utf8 value with
      | .ok s => .ok (s, rest2)
      | .error e => .error e
    else if tag = 254 then do
      let (len, rest) ← read_int 4 input
      let (value, rest2) ← read_bytes len rest
      match string_from_utf8 value with
      | .ok s => .ok (s, rest2)
      | .error e => .error e
    else if tag = 250 then do
      let (user_tag, r1) ← read_byte input
      let (user, r2) ← read_string_fuel fuel user_tag r1
      let (server_tag, r3) ← read_byte r2
      let (server, r4) ← read_string_fuel fuel server_tag r3
      if server = [] then .error (.InvalidFrame "invalid jid pair")
      else if user = [] then .ok (64 :: server, r4)
      else .ok (user ++ [64] ++ server, r4)
    else if tag = 247 then do
      let (domain_type, r1) ← read_byte input
      let (device, r2) ← read_byte r1
      let (user_tag, r3) ← read_byte r2
      let (user, r4) ← read_string_fuel fuel user_tag r3
      let server :=
        if domain_type = 1 then strBytes "lid"
        else if domain_type = 128 then strBytes "hosted"
        else if domain_type = 129 then strBytes "hosted.lid"
        else strBytes "s.whatsapp.net"
      .ok (jid_encode user server (if 0 < device then some device else none), r4)
    else if tag = 246 then do
      let (user_tag, r1) ← read_byte input
      let (user, r2) ← read_string_fuel fuel user_tag r1
      let (device, r3) ← read_int 2 r2
      let (server_tag, r4) ← read_byte r3
      let (server, r5) ← read_string_fuel fuel server_tag r4
      .ok (user ++ [58] ++ natDecimalBytes device ++ [64] ++ server, r5)
    else if tag = 245 then do
      let (user_tag, r1) ← read_byte input
      let (user, r2) ← read_string_fuel fuel user_tag r1
      let (device, r3) ← read_int 2 r2
      let (integrator, r4) ← read_int 2 r3
      match (do
          let (stag, ra) ← read_byte r4
          read_string_fuel fuel stag ra : Except BinaryNodeError (List Nat × List Nat)) with
      | .ok (server, r5) =>
        .ok (natDecimalBytes integrator ++ [45] ++ user ++ [58] ++
          natDecimalBytes device ++ [64] ++ server, r5)
      | .error _ =>
        .ok (natDecimalBytes integrator ++ [45] ++ user ++ [58] ++
          natDecimalBytes device ++ [64] ++ strBytes "interop", r4)
    else if tag = 251 ∨ tag = 255 then read_packed_8 tag input
    else .error (.InvalidSymbolType tag)

/-- `RealDecoder::read_string` at its canonical fuel. -/
def read_string (tag : Nat) (input : List Nat) : Except BinaryNodeError (List Nat × List Nat) :=
  read_string_fuel (input.length + 1) tag input

/-- The attribute loop of `RealDecoder::decode_node`
(src/wa/binary_node.rs:385-391); pairs are returned in wire order (the Rust
decoder inserts them into a `HashMap`, whose canonical association-list form
this is whenever the keys are strictly sorted, as the encoder emits them). -/
def read_attrs : Nat → List Nat → Except BinaryNodeError ((List (List Nat × List Nat)) × List Nat)
  | 0, input => .ok ([], input)
  | n + 1, input => do
    let (ktag, r1) ← read_byte input
    let (k, r2) ← read_string ktag r1
    let (vtag, r3) ← read_byte r2
    let (v, r4) ← read_string vtag r3
    let (rest, r5) ← read_attrs n r4
    pure ((k, v) :: rest, r5)

/- `RealDecoder::decode_node` and `RealDecoder::read_list`
(src/wa/binary_node.rs:372-437), fuelled for the nesting recursion (each
node and each sibling step consumes input, so any fuel of at least
`input.length + 1` makes the model total without changing its value). -/
mutual
def decode_node_fuel : Nat → List Nat → Except BinaryNodeError (BinaryNode × List Nat)
  | 0, _ => .error (.InvalidFrame "decode fuel exhausted")
  | fuel + 1, input => do
    let (list_tag, r1) ← read_byte input
    let (list_size, r2) ← read_list_size list_tag r1
    let (header_tag, r3) ← read_byte r2
    let (header, r4) ← read_string header_tag r3
    if list_size = 0 ∨ header = [] then .error (.InvalidFrame "invalid wa node")
    else do
      let (attrs, r5) ← read_attrs ((list_size - 1) >>> 1) r4
      if list_size % 2 = 0 then do
        let (ctag, r6) ← read_byte r5
        if is_list_tag ctag then do
          let (size, r7) ← read_list_size ctag r6
          let (children, r8) ← read_nodes_fuel fuel size r7
          pure (BinaryNode.node header attrs (.nodes children), r8)
        else if ctag = 252 then do
          let (len, r7) ← read_byte r6
          let (bs, r8) ← read_bytes len r7
          pure (BinaryNode.node header attrs (.bytesContent bs), r8)
        else if ctag = 253 then do
          let (len, r7) ← read_int20 r6
          let (bs, r8) ← read_bytes len r7
          pure (BinaryNode.node header attrs (.bytesContent bs), r8)
        else if ctag = 254 then do
          let (len, r7) ← read_int 4 r6
          let (bs, r8) ← read_bytes len r7
          pure (BinaryNode.node header attrs (.bytesContent bs), r8)
        else do
          let (s, r7) ← read_string ctag r6
          pure (BinaryNode.node header attrs (.bytesContent s), r7)
      else pure (BinaryNode.node header attrs .empty, r5)

def read_nodes_fuel : Nat → Nat → List Nat → Except BinaryNodeError (NodeList × List Nat)
  | _, 0, input => .ok (.nil, input)
  | 0, _ + 1, _ => .error (.InvalidFrame "decode fuel exhausted")
  | fuel + 1, count + 1, input => do
    let (node, r1) ← decode_node_fuel fuel input
    let (rest, r2) ← read_nodes_fuel fuel count r1
    pure (.cons node rest, r2)
end

/-- `decode_real` (src/wa/binary_node.rs:70-79): decompress, decode one
node, and require the cursor to sit at the end of the input.  The zlib
inflation routine is passed in as `inflate`. -/
def decode_real (inflate : List Nat → Except String (List Nat)) (input : List Nat) :
    Except BinaryNodeError BinaryNode := do
  let decompressed ← decompress_if_required inflate input
  let (node, rest) ← decode_node_fuel (decompressed.length + 1) decompressed
  if rest = [] then pure node else .error .TrailingBytes

lemma lor_shl_eq_add (b a k : Nat) (ha : a < 2 ^ k) : (b <<< k) ||| a = b * 2 ^ k + a := by
  rw [Nat.shiftLeft_eq, mul_comm b (2 ^ k), ← Nat.mul_add_lt_is_or ha, mul_comm]

lemma shr_and_255 (x n : Nat) : (x >>> n) &&& 0xFF = x / 2 ^ n % 2 ^ 8 := by
  have h255 : (0xFF : Nat) = 2 ^ 8 - 1 := by norm_num
  rw [h255, Nat.and_pow_two_sub_one_eq_mod, Nat.shiftRight_eq_div_pow]

lemma and_255_eq_mod (x : Nat) : x &&& 0xFF = x % 2 ^ 8 := by
  have := shr_and_255 x 0
  simpa using this

lemma and_15_eq_mod (x : Nat) : x &&& 0x0F = x % 2 ^ 4 := by
  have h15 : (0x0F : Nat) = 2 ^ 4 - 1 := by norm_num
  rw [h15, Nat.and_pow_two_sub_one_eq_mod]

lemma and_127_eq_mod (x : Nat) : x &&& 0x7F = x % 2 ^ 7 := by
  have h127 : (0x7F : Nat) = 2 ^ 7 - 1 := by norm_num
  rw [h127, Nat.and_pow_two_sub_one_eq_mod]

lemma shr_eq_div (x n : Nat) : x >>> n = x / 2 ^ n := Nat.shiftRight_eq_div_pow x n

lemma recombine20 (len : Nat) (h : len < 2 ^ 20) :
    ((((len >>> 16) &&& 0x0F) &&& 0x0F) <<< 16) ||| ((((len >>> 8) &&& 0xFF)) <<< 8) |||
      (len &&& 0xFF) = len := by
  have hlow : len &&& 0xFF < 2 ^ 8 := by rw [and_255_eq_mod]; exact Nat.mod_lt _ (by norm_num)
  have hmid : (((len >>> 8) &&& 0xFF) <<< 8) ||| (len &&& 0xFF)
      = ((len >>> 8) &&& 0xFF) * 2 ^ 8 + (len &&& 0xFF) := lor_shl_eq_add _ _ _ hlow
  have hmid_lt : (((len >>> 8) &&& 0xFF) <<< 8) ||| (len &&& 0xFF) < 2 ^ 16 := by
    rw [hmid, and_255_eq_mod, and_255_eq_mod]
    have := Nat.mod_lt (len >>> 8) (y := 2 ^ 8) (by norm_num)
    have := Nat.mod_lt len (y := 2 ^ 8) (by norm_num)
    omega
  rw [Nat.lor_assoc, lor_shl_eq_add _ _ _ hmid_lt, hmid]
  rw [and_15_eq_mod, and_15_eq_mod, and_255_eq_mod, and_255_eq_mod, shr_eq_div, shr_eq_div]
  omega

lemma recombine32_step (acc b : Nat) (hb : b < 2 ^ 8) :
    (acc <<< 8) ||| b = acc * 2 ^ 8 + b := lor_shl_eq_add _ _ _ hb

lemma read_bytes_append (xs rest : List Nat) :
    read_bytes xs.length (xs ++ rest) = .ok (xs, rest) := by
  rw [read_bytes, if_pos (by simp)]
  rw [List.take_left, List.drop_left]

lemma read_int_aux_bytes (n acc : Nat) :
    ∀ (bs rest : List Nat), bs.length = n → (∀ b ∈ bs, b < 2 ^ 8) →
      read_int_aux n acc (bs ++ rest) =
        .ok (bs.foldl (fun a b => a * 2 ^ 8 + b) acc, rest) := by
  induction n generalizing acc with
  | zero =>
    intro bs rest hlen hb
    rw [List.length_eq_zero] at hlen
    subst hlen
    simp [read_int_aux]
  | succ n ih =>
    intro bs rest hlen hb
    cases bs with
    | nil => simp at hlen
    | cons b bs =>
      simp only [List.length_cons, Nat.succ.injEq] at hlen
      rw [List.cons_append, read_int_aux]
      rw [recombine32_step acc b (hb b (by simp))]
      rw [ih _ bs rest hlen (fun x hx => hb x (by simp [hx]))]
      simp

lemma push_int_bytes_4 (v : Nat) :
    push_int_bytes v 4 =
      [(v >>> 24) &&& 0xFF, (v >>> 16) &&& 0xFF, (v >>> 8) &&& 0xFF, v &&& 0xFF] := by
  simp [push_int_bytes, List.range_succ]

lemma read_int4_push (v : Nat) (hv : v < 2 ^ 32) (rest : List Nat) :
    read_int 4 (push_int_bytes v 4 ++ rest) = .ok (v, rest) := by
  rw [push_int_bytes_4, read_int]
  have hmod : ∀ x : Nat, x &&& 0xFF < 2 ^ 8 := by
    intro x
    rw [and_255_eq_mod]
    exact Nat.mod_lt _ (by norm_num)
  rw [read_int_aux_bytes 4 0 _ rest (by simp) (by
    intro b hb
    simp only [List.mem_cons, List.not_mem_nil, or_false] at hb
    rcases hb with rfl | rfl | rfl | rfl <;> exact hmod _)]
  simp only [List.foldl_cons, List.foldl_nil]
  rw [and_255_eq_mod, and_255_eq_mod, and_255_eq_mod, and_255_eq_mod,
    shr_eq_div, shr_eq_div, shr_eq_div]
  norm_num
  omega

lemma write_list_start_roundtrip (size : Nat) (h : size ≤ 65535) :
    ∃ t body, write_list_start size = .ok (t :: body) ∧ is_list_tag t = true ∧
      ∀ rest : List Nat, read_list_size t (body ++ rest) = .ok (size, rest) := by
  by_cases h0 : size = 0
  · subst h0
    exact ⟨0, [], rfl, rfl, fun rest => rfl⟩
  · by_cases h256 : size < 256
    · refine ⟨248, [size], ?_, rfl, fun rest => ?_⟩
      · rw [write_list_start, if_neg h0, if_pos h256]
      · rw [read_list_size]
        norm_num [read_byte]
    · refine ⟨249, [size >>> 8, size &&& 0xFF], ?_, rfl, fun rest => ?_⟩
      · rw [write_list_start, if_neg h0, if_neg h256, if_pos h]
      · rw [read_list_size]
        norm_num [read_int]
        have hbytes := read_int_aux_bytes 2 0 [size >>> 8, size &&& 0xFF] rest rfl (by
          intro b hb
          simp only [List.mem_cons, List.not_mem_nil, or_false] at hb
          have h1 : size >>> 8 < 2 ^ 8 := by rw [shr_eq_div]; omega
          have h2 : size &&& 0xFF < 2 ^ 8 := by
            rw [and_255_eq_mod]; exact Nat.mod_lt _ (by norm_num)
          rcases hb with rfl | rfl
          · exact h1
          · exact h2)
        simp only [List.cons_append, List.nil_append, List.foldl_cons, List.foldl_nil] at hbytes
        rw [hbytes]
        rw [and_255_eq_mod, shr_eq_div]
        norm_num
        omega

lemma single_len : SINGLE_BYTE_TOKENS.length = 236 := by decide

lemma read_int20_bytes (len : Nat) (h : len < 2 ^ 20) (rest : List Nat) :
    read_int20 (((len >>> 16) &&& 0x0F) :: ((len >>> 8) &&& 0xFF) :: (len &&& 0xFF) :: rest) =
      .ok (len, rest) := by
  rw [read_int20, recombine20 len h]

lemma write_byte_length_cases (len : Nat) (h : len < 2 ^ 32) :
    (len < 256 ∧ write_byte_length len = .ok [252, len]) ∨
    (256 ≤ len ∧ len < 2 ^ 20 ∧
      write_byte_length len =
        .ok [253, (len >>> 16) &&& 0x0F, (len >>> 8) &&& 0xFF, len &&& 0xFF]) ∨
    (2 ^ 20 ≤ len ∧ write_byte_length len = .ok (254 :: push_int_bytes len 4)) := by
  rw [write_byte_length, if_neg (by omega)]
  by_cases h20 : len ≥ 2 ^ 20
  · right; right
    rw [if_pos h20]
    exact ⟨h20, rfl⟩
  · rw [if_neg h20]
    by_cases h256 : len ≥ 256
    · right; left
      rw [if_pos h256]
      exact ⟨h256, by omega, rfl⟩
    · left
      rw [if_neg h256]
      exact ⟨by omega, rfl⟩

lemma write_string_raw_roundtrip (s : List Nat) (hlen : s.length < 2 ^ 32)
    (hutf : validUtf8 s = true) :
    ∃ t body, write_string_raw s = .ok (t :: body) ∧ (t = 252 ∨ t = 253 ∨ t = 254) ∧
      ∀ fuel rest, read_string_fuel (fuel + 1) t (body ++ rest) = .ok (s, rest) := by
  rcases write_byte_length_cases s.length hlen with ⟨hr, hw⟩ | ⟨hr1, hr2, hw⟩ | ⟨hr, hw⟩
  · refine ⟨252, s.length :: s, ?_, by norm_num, fun fuel rest => ?_⟩
    · rw [write_string_raw, hw]
      rfl
    · rw [read_string_fuel]
      rw [if_neg (by rw [single_len]; omega), if_neg (by omega), if_neg (by omega),
        if_pos rfl]
      show (do
        let x ← read_byte ((s.length :: s) ++ rest)
        let y ← read_bytes x.1 x.2
        match string_from_utf8 y.1 with
        | .ok s2 => .ok (s2, y.2)
        | .error e => .error e) = Except.ok (s, rest)
      rw [List.cons_append, read_byte]
      show (do
        let y ← read_bytes s.length (s ++ rest)
        match string_from_utf8 y.1 with
        | .ok s2 => .ok (s2, y.2)
        | .error e => .error e : Except BinaryNodeError (List Nat × List Nat)) = .ok (s, rest)
      rw [read_bytes_append s rest]
      show (match string_from_utf8 s with
        | .ok s2 => .ok (s2, rest)
        | .error e => .error e : Except BinaryNodeError (List Nat × List Nat)) = .ok (s, rest)
      rw [string_from_utf8, if_pos hutf]
  · refine ⟨253,
      ((s.length >>> 16) &&& 0x0F) :: ((s.length >>> 8) &&& 0xFF) :: (s.length &&& 0xFF) :: s,
      ?_, by norm_num, fun fuel rest => ?_⟩
    · rw [write_string_raw, hw]
      rfl
    · rw [read_string_fuel]
      rw [if_neg (by rw [single_len]; omega), if_neg (by omega), if_neg (by omega),
        if_neg (by omega), if_pos rfl]
      show (do
        let x ← read_int20 ((((s.length >>> 16) &&& 0x0F) :: ((s.length >>> 8) &&& 0xFF) ::
          (s.length &&& 0xFF) :: s) ++ rest)
        let y ← read_bytes x.1 x.2
        match string_from_utf8 y.1 with
        | .ok s2 => .ok (s2, y.2)
        | .error e => .error e) = Except.ok (s, rest)
      simp only [List.cons_append]
      rw [read_int20_bytes s.length hr2 (s ++ rest)]
      show (do
        let y ← read_bytes s.length (s ++ rest)
        match string_from_utf8 y.1 with
        | .ok s2 => .ok (s2, y.2)
        | .error e => .error e : Except BinaryNodeError (List Nat × List Nat)) = .ok (s, rest)
      rw [read_bytes_append s rest]
      show (match string_from_utf8 s with
        | .ok s2 => .ok (s2, rest)
        | .error e => .error e : Except BinaryNodeError (List Nat × List Nat)) = .ok (s, rest)
      rw [string_from_utf8, if_pos hutf]
  · refine ⟨254, push_int_bytes s.length 4 ++ s, ?_, by norm_num, fun fuel rest => ?_⟩
    · rw [write_string_raw, hw]
      rfl
    · rw [read_string_fuel]
      rw [if_neg (by rw [single_len]; omega), if_neg (by omega), if_neg (by omega),
        if_neg (by omega), if_neg (by omega), if_pos rfl]
      show (do
        let x ← read_int 4 ((push_int_bytes s.length 4 ++ s) ++ rest)
        let y ← read_bytes x.1 x.2
        match string_from_utf8 y.1 with
        | .ok s2 => .ok (s2, y.2)
        | .error e => .error e) = Except.ok (s, rest)
      rw [List.append_assoc, read_int4_push s.length hlen (s ++ rest)]
      show (do
        let y ← read_bytes s.length (s ++ rest)
        match string_from_utf8 y.1 with
        | .ok s2 => .ok (s2, y.2)
        | .error e => .error e : Except BinaryNodeError (List Nat × List Nat)) = .ok (s, rest)
      rw [read_bytes_append s rest]
      show (match string_from_utf8 s with
        | .ok s2 => .ok (s2, rest)
        | .error e => .error e : Except BinaryNodeError (List Nat × List Nat)) = .ok (s, rest)
      rw [string_from_utf8, if_pos hutf]

lemma findTokenIdxAux_spec (s : List Nat) :
    ∀ ts i, findTokenIdxAux s ts = some i → i < ts.length ∧ ts.getD i [] = s := by
  intro ts
  induction ts with
  | nil => intro i h; simp [findTokenIdxAux] at h
  | cons t ts ih =>
    intro i h
    rw [findTokenIdxAux] at h
    by_cases ht : t = s
    · rw [if_pos ht] at h
      injection h with h
      subst h
      exact ⟨by simp, ht⟩
    · rw [if_neg ht] at h
      cases hfind : findTokenIdxAux s ts with
      | none => rw [hfind] at h; simp at h
      | some j =>
        rw [hfind] at h
        simp only [Option.map, Option.some.injEq] at h
        subst h
        obtain ⟨hj1, hj2⟩ := ih j hfind
        exact ⟨by simpa using hj1, by simpa using hj2⟩

lemma findDoubleIdxAux_spec (s : List Nat) :
    ∀ rows d i, findDoubleIdxAux s rows = some (d, i) →
      ∃ row, rows[d]? = some row ∧ row[i]? = some s := by
  intro rows
  induction rows with
  | nil => intro d i h; simp [findDoubleIdxAux] at h
  | cons row rows ih =>
    intro d i h
    rw [findDoubleIdxAux] at h
    cases hfind : findTokenIdxAux s row with
    | some j =>
      rw [hfind] at h
      simp only [Option.some.injEq, Prod.mk.injEq] at h
      obtain ⟨h1, h2⟩ := h
      subst h1
      subst h2
      obtain ⟨hj1, hj2⟩ := findTokenIdxAux_spec s row j hfind
      refine ⟨row, by simp, ?_⟩
      have hsome : row[j]? = some row[j] := List.getElem?_eq_getElem hj1
      rw [hsome]
      rw [List.getD_eq_getElem?_getD, hsome] at hj2
      simpa using hj2
    | none =>
      rw [hfind] at h
      cases hrec : findDoubleIdxAux s rows with
      | none => rw [hrec] at h; simp at h
      | some p =>
        rw [hrec] at h
        obtain ⟨pd, pi⟩ := p
        simp only [Option.map, Option.some.injEq, Prod.mk.injEq] at h
        obtain ⟨h1, h2⟩ := h
        subst h1
        subst h2
        obtain ⟨row2, hr1, hr2⟩ := ih pd pi hrec
        exact ⟨row2, by simpa using hr1, hr2⟩

lemma single_getD_zero : SINGLE_BYTE_TOKENS.getD 0 [] = [] := by decide

lemma double_rows_len : DOUBLE_BYTE_TOKENS.length = 4 := by decide

lemma token_read (s : List Nat) (hs : s ≠ []) (tok : WaTokenIndex)
    (h : wa_token_lookup s = some tok) (fuel : Nat) (rest : List Nat) :
    (tok.dict = none →
      1 ≤ tok.index ∧ tok.index < SINGLE_BYTE_TOKENS.length ∧
        read_string_fuel (fuel + 1) tok.index rest = .ok (s, rest)) ∧
    (∀ d, tok.dict = some d → d < 4 ∧
      read_string_fuel (fuel + 1) (236 + d) (tok.index :: rest) = .ok (s, rest)) := by
  rw [wa_token_lookup] at h
  constructor
  · intro hdict
    cases hdouble : findDoubleIdxAux s DOUBLE_BYTE_TOKENS with
    | some p =>
      rw [hdouble] at h
      injection h with h
      subst h
      exact Option.noConfusion hdict
    | none =>
      rw [hdouble] at h
      cases hsingle : findTokenIdxAux s SINGLE_BYTE_TOKENS with
      | none => rw [hsingle] at h; simp at h
      | some i =>
        rw [hsingle] at h
        injection h with h
        obtain ⟨hi1, hi2⟩ := findTokenIdxAux_spec s SINGLE_BYTE_TOKENS i hsingle
        have hi0 : 1 ≤ i := by
          rcases Nat.eq_zero_or_pos i with rfl | hpos
          · rw [single_getD_zero] at hi2
            exact absurd hi2.symm hs
          · exact hpos
        rw [← h]
        refine ⟨hi0, hi1, ?_⟩
        rw [read_string_fuel, if_pos ⟨hi0, hi1⟩, hi2]
  · intro d hdict
    cases hdouble : findDoubleIdxAux s DOUBLE_BYTE_TOKENS with
    | none =>
      rw [hdouble] at h
      cases hsingle : findTokenIdxAux s SINGLE_BYTE_TOKENS with
      | none => rw [hsingle] at h; simp at h
      | some i =>
        rw [hsingle] at h
        injection h with h
        rw [← h] at hdict
        simp at hdict
    | some p =>
      rw [hdouble] at h
      injection h with h
      obtain ⟨row, hrow, hentry⟩ :=
        findDoubleIdxAux_spec s DOUBLE_BYTE_TOKENS p.1 p.2 hdouble
      have hd : p.1 = d := by
        have := congrArg WaTokenIndex.dict h
        simp [hdict] at this
        exact this
      have hidx : p.2 = tok.index := congrArg WaTokenIndex.index h
      have hdlt : d < 4 := by
        rw [← hd]
        have hlt : p.1 < DOUBLE_BYTE_TOKENS.length := by
          by_contra hge
          rw [List.getElem?_eq_none (by omega)] at hrow
          simp at hrow
        rw [double_rows_len] at hlt
        exact hlt
      refine ⟨hdlt, ?_⟩
      rw [read_string_fuel, if_neg (by rw [single_len]; omega), if_pos (by omega)]
      show (do
        let x ← read_byte (tok.index :: rest)
        match DOUBLE_BYTE_TOKENS[236 + d - 236]? with
        | none => Except.error (.UnknownTokenDictionary (236 + d - 236))
        | some dict =>
          match dict[x.1]? with
          | none => Except.error (.UnknownDoubleToken (236 + d - 236) x.1)
          | some value => Except.ok (value, x.2)) = Except.ok (s, rest)
      rw [read_byte]
      have hd236 : 236 + d - 236 = d := by omega
      rw [hd236]
      show (match DOUBLE_BYTE_TOKENS[d]? with
        | none => Except.error (.UnknownTokenDictionary d)
        | some dict =>
          match dict[tok.index]? with
          | none => Except.error (.UnknownDoubleToken d tok.index)
          | some value => Except.ok (value, rest) :
          Except BinaryNodeError (List Nat × List Nat)) = Except.ok (s, rest)
      rw [← hd, ← hidx, hrow]
      show (match row[p.2]? with
        | none => Except.error (.UnknownDoubleToken p.1 p.2)
        | some value => Except.ok (value, rest) :
        Except BinaryNodeError (List Nat × List Nat)) = Except.ok (s, rest)
      rw [hentry]

lemma ascii_validUtf8 : ∀ s : List Nat, (∀ b ∈ s, b < 128) → validUtf8 s = true := by
  have key : ∀ f (s : List Nat), s.length ≤ f → (∀ b ∈ s, b < 128) →
      validUtf8Fuel f s = true := by
    intro f
    induction f with
    | zero =>
      intro s hl _
      have : s = [] := List.eq_nil_of_length_eq_zero (Nat.le_zero.mp hl)
      subst this
      rfl
    | succ f ih =>
      intro s hl h
      cases s with
      | nil => rfl
      | cons b rest =>
        have hb : b < 128 := h b (List.mem_cons_self b rest)
        have hneed : utf8Need b = 0 := by rw [utf8Need, if_pos (by omega)]
        rw [validUtf8Fuel, if_pos hneed]
        simp only [List.length_cons] at hl
        exact ih rest (by omega) fun x hx => h x (List.mem_cons_of_mem b hx)
  intro s h
  exact key s.length s (Nat.le_refl _) h

lemma pack_unpack_nibble (b : Nat) (hb : (isAsciiDigitB b || b == 45 || b == 46) = true) :
    ∃ v, pack_char b 255 = .ok v ∧ v < 16 ∧ unpack_byte 255 v = .ok b ∧ b < 128 := by
  simp only [Bool.or_eq_true, beq_iff_eq, isAsciiDigitB, Bool.and_eq_true,
    decide_eq_true_eq] at hb
  rw [pack_char, if_pos rfl]
  rcases hb with (⟨h1, h2⟩ | h45) | h46
  · refine ⟨b - 48, ?_, by omega, ?_, by omega⟩
    · rw [if_pos ⟨h1, h2⟩]
    · rw [unpack_byte, if_pos rfl, unpack_nibble, if_pos (by omega)]
      congr 1
      omega
  · subst h45
    exact ⟨10, by decide, by decide, by decide, by decide⟩
  · subst h46
    exact ⟨11, by decide, by decide, by decide, by decide⟩

lemma pack_unpack_hex (b : Nat) (hb : (isAsciiDigitB b || (65 ≤ b && b ≤ 70)) = true) :
    ∃ v, pack_char b 251 = .ok v ∧ v < 16 ∧ unpack_byte 251 v = .ok b ∧ b < 128 := by
  simp only [Bool.or_eq_true, isAsciiDigitB, Bool.and_eq_true, decide_eq_true_eq] at hb
  rw [pack_char, if_neg (by norm_num), if_pos rfl]
  rcases hb with ⟨h1, h2⟩ | ⟨h1, h2⟩
  · refine ⟨b - 48, ?_, by omega, ?_, by omega⟩
    · rw [if_pos ⟨h1, h2⟩]
    · rw [unpack_byte, if_neg (by norm_num), if_pos rfl, unpack_hex, if_pos (by omega)]
      congr 1
      omega
  · refine ⟨10 + (b - 65), ?_, by omega, ?_, by omega⟩
    · rw [if_neg (by omega), if_pos ⟨h1, h2⟩]
    · rw [unpack_byte, if_neg (by norm_num), if_pos rfl, unpack_hex,
        if_neg (by omega), if_pos (by omega)]
      congr 1
      omega

lemma and240_eq_shl : (0xF0 : Nat) = 15 <<< 4 := by decide

lemma and240_shr4_gen (x : Nat) : (x &&& 0xF0) >>> 4 = (x >>> 4) &&& 0x0F := by
  rw [and240_eq_shl]
  apply Nat.eq_of_testBit_eq
  intro i
  simp only [Nat.testBit_shiftRight, Nat.testBit_and, Nat.testBit_shiftLeft]
  have h4 : 4 ≤ 4 + i := by omega
  simp only [h4, decide_True, Bool.true_and]
  have heq : 4 + i - 4 = i := by omega
  rw [heq]

lemma packed_byte_split (l r : Nat) (hl : l < 16) (hr : r < 16) :
    (((l <<< 4) ||| r) &&& 0xF0) >>> 4 = l ∧ ((l <<< 4) ||| r) &&& 0x0F = r := by
  have hx : (l <<< 4) ||| r = l * 2 ^ 4 + r := lor_shl_eq_add l r 4 (by norm_num; omega)
  constructor
  · rw [and240_shr4_gen, hx, shr_eq_div, and_15_eq_mod]
    norm_num
    omega
  · rw [hx, and_15_eq_mod]
    norm_num
    omega

lemma pack_pairs_ok (tag pad : Nat) (hpadv : unpack_byte tag 0x0F = .ok pad) :
    ∀ (n : Nat) (s : List Nat), s.length ≤ n →
      (∀ b ∈ s, ∃ v, pack_char b tag = .ok v ∧ v < 16 ∧ unpack_byte tag v = .ok b) →
      ∃ packed, pack_pairs tag s = .ok packed ∧
        ∀ rest, read_packed_aux tag ((s.length + 1) / 2) (packed ++ rest) =
          .ok ((if s.length % 2 = 0 then s else s ++ [pad]), rest) := by
  intro n
  induction n with
  | zero =>
    intro s hlen _
    rw [Nat.le_zero, List.length_eq_zero] at hlen
    subst hlen
    exact ⟨[], rfl, fun rest => by simp [read_packed_aux]⟩
  | succ n ih =>
    intro s hlen hchars
    match s with
    | [] => exact ⟨[], rfl, fun rest => by simp [read_packed_aux]⟩
    | [c] =>
      obtain ⟨v, hv1, hv2, hv3⟩ := hchars c (by simp)
      refine ⟨[(v <<< 4) ||| 0x0F], ?_, fun rest => ?_⟩
      · rw [pack_pairs, hv1]
        rfl
      · have h1 : (([c] : List Nat).length + 1) / 2 = 0 + 1 := by simp
        have h2 : (([c] : List Nat).length) % 2 = 1 := by simp
        rw [h1, h2]
        simp only [List.singleton_append]
        rw [read_packed_aux]
        obtain ⟨hsplit1, hsplit2⟩ := packed_byte_split v 0x0F hv2 (by norm_num)
        rw [hsplit1, hsplit2, hv3, hpadv]
        rfl
    | c1 :: c2 :: s2 =>
      obtain ⟨v1, hv11, hv12, hv13⟩ := hchars c1 (by simp)
      obtain ⟨v2, hv21, hv22, hv23⟩ := hchars c2 (by simp)
      have hlen2 : s2.length ≤ n := by
        simp only [List.length_cons] at hlen
        omega
      obtain ⟨packed2, hp1, hp2⟩ := ih s2 hlen2 fun b hb => hchars b (by simp [hb])
      refine ⟨((v1 <<< 4) ||| v2) :: packed2, ?_, fun rest => ?_⟩
      · rw [pack_pairs, hv11, hv21, hp1]
        rfl
      · have hcount : ((c1 :: c2 :: s2).length + 1) / 2 = (s2.length + 1) / 2 + 1 := by
          simp only [List.length_cons]
          omega
        rw [hcount, List.cons_append, read_packed_aux]
        obtain ⟨hsplit1, hsplit2⟩ := packed_byte_split v1 v2 hv12 hv22
        rw [hsplit1, hsplit2, hv13, hv23, hp2 rest]
        have hmod : (c1 :: c2 :: s2).length % 2 = s2.length % 2 := by
          simp only [List.length_cons]
          omega
        rw [hmod]
        by_cases he : s2.length % 2 = 0
        · rw [if_pos he, if_pos he]
          rfl
        · rw [if_neg he, if_neg he]
          rfl

lemma split_once_none (sep : Nat) : ∀ s : List Nat, sep ∉ s → split_once sep s = none := by
  intro s
  induction s with
  | nil => intro _; rfl
  | cons b rest ih =>
    intro h
    simp only [List.mem_cons, not_or] at h
    rw [split_once, if_neg (fun hb => h.1 hb.symm), ih h.2]

lemma jid_decode_none (s : List Nat) (h : (64 : Nat) ∉ s) : jid_decode s = none := by
  rw [jid_decode, split_once_none 64 s h]

lemma is_nibble_all (s : List Nat) (h : is_nibble s = true) :
    s.length ≤ 127 ∧ ∀ b ∈ s, (isAsciiDigitB b || b == 45 || b == 46) = true := by
  rw [is_nibble] at h
  split at h
  · exact absurd h (by simp)
  · next hc =>
    refine ⟨?_, fun b hb => List.all_eq_true.mp h b hb⟩
    simp only [Bool.or_eq_true, decide_eq_true_eq] at hc
    push_neg at hc
    omega

lemma is_hex_all (s : List Nat) (h : is_hex s = true) :
    s.length ≤ 127 ∧ ∀ b ∈ s, (isAsciiDigitB b || (65 ≤ b && b ≤ 70)) = true := by
  rw [is_hex] at h
  split at h
  · exact absurd h (by simp)
  · next hc =>
    refine ⟨?_, fun b hb => List.all_eq_true.mp h b hb⟩
    simp only [Bool.or_eq_true, decide_eq_true_eq] at hc
    push_neg at hc
    omega

lemma read_string_packed_tag (tag : Nat) (htag : tag = 255 ∨ tag = 251)
    (fuel : Nat) (input : List Nat) :
    read_string_fuel (fuel + 1) tag input = read_packed_8 tag input := by
  rcases htag with rfl | rfl
  · rfl
  · rfl

lemma write_packed_bytes_roundtrip (tag pad : Nat) (htag : tag = 255 ∨ tag = 251)
    (hpadv : unpack_byte tag 0x0F = .ok pad)
    (s : List Nat) (hlen : s.length ≤ 127)
    (hchars : ∀ b ∈ s, ∃ v, pack_char b tag = .ok v ∧ v < 16 ∧ unpack_byte tag v = .ok b)
    (hascii : ∀ b ∈ s, b < 128) :
    ∃ body, write_packed_bytes s tag = .ok (tag :: body) ∧
      ∀ fuel rest, read_string_fuel (fuel + 1) tag (body ++ rest) = .ok (s, rest) := by
  obtain ⟨packed, hp1, hp2⟩ := pack_pairs_ok tag pad hpadv s.length s (Nat.le_refl _) hchars
  have hutf : validUtf8 s = true := ascii_validUtf8 s hascii
  have hhalf : (s.length + 1) / 2 < 128 := by omega
  by_cases hpar : s.length % 2 = 0
  · refine ⟨(s.length + 1) / 2 :: packed, ?_, fun fuel rest => ?_⟩
    · rw [write_packed_bytes, if_neg (by omega)]
      show (do
        let packed ← pack_pairs tag s
        pure (tag :: (if s.length % 2 ≠ 0 then (s.length + 1) / 2 ||| 0x80
          else (s.length + 1) / 2) :: packed) :
        Except BinaryNodeError (List Nat)) =
        Except.ok (tag :: (s.length + 1) / 2 :: packed)
      have hro : (if s.length % 2 ≠ 0 then (s.length + 1) / 2 ||| 0x80
          else (s.length + 1) / 2) = (s.length + 1) / 2 := if_neg (by omega)
      simp only [hro]
      rw [hp1]
      rfl
    · have hp2e := hp2 rest
      rw [if_pos hpar] at hp2e
      have hand : (s.length + 1) / 2 &&& 0x7F = (s.length + 1) / 2 := by
        rw [and_127_eq_mod]
        omega
      have hshr : ((s.length + 1) / 2) >>> 7 = 0 := by
        rw [shr_eq_div]
        omega
      rw [read_string_packed_tag tag htag]
      rw [read_packed_8]
      show (do
        let x ← read_byte (((s.length + 1) / 2 :: packed) ++ rest)
        let y ← read_packed_aux tag (x.1 &&& 0x7F) x.2
        match string_from_utf8 (if x.1 >>> 7 ≠ 0 then y.1.dropLast else y.1) with
        | .ok s2 => Except.ok (s2, y.2)
        | .error e => Except.error e) = Except.ok (s, rest)
      rw [List.cons_append, read_byte]
      show (do
        let y ← read_packed_aux tag (((s.length + 1) / 2) &&& 0x7F) (packed ++ rest)
        match string_from_utf8 (if ((s.length + 1) / 2) >>> 7 ≠ 0 then y.1.dropLast else y.1) with
        | .ok s2 => Except.ok (s2, y.2)
        | .error e => Except.error e : Except BinaryNodeError (List Nat × List Nat)) =
        Except.ok (s, rest)
      rw [hand, hp2e]
      show (match string_from_utf8 (if ((s.length + 1) / 2) >>> 7 ≠ 0 then s.dropLast else s) with
        | .ok s2 => Except.ok (s2, rest)
        | .error e => Except.error e : Except BinaryNodeError (List Nat × List Nat)) =
        Except.ok (s, rest)
      rw [hshr, if_neg (by omega), string_from_utf8, if_pos hutf]
  · refine ⟨((s.length + 1) / 2 ||| 0x80) :: packed, ?_, fun fuel rest => ?_⟩
    · rw [write_packed_bytes, if_neg (by omega)]
      show (do
        let packed ← pack_pairs tag s
        pure (tag :: (if s.length % 2 ≠ 0 then (s.length + 1) / 2 ||| 0x80
          else (s.length + 1) / 2) :: packed) :
        Except BinaryNodeError (List Nat)) =
        Except.ok (tag :: ((s.length + 1) / 2 ||| 0x80) :: packed)
      have hro : (if s.length % 2 ≠ 0 then (s.length + 1) / 2 ||| 0x80
          else (s.length + 1) / 2) = (s.length + 1) / 2 ||| 0x80 := if_pos (by omega)
      simp only [hro]
      rw [hp1]
      rfl
    · have hp2e := hp2 rest
      rw [if_neg hpar] at hp2e
      have hr128 : (s.length + 1) / 2 ||| 0x80 = 128 + (s.length + 1) / 2 := by
        have h80 : (0x80 : Nat) = 1 <<< 7 := by decide
        rw [Nat.lor_comm, h80, lor_shl_eq_add 1 ((s.length + 1) / 2) 7 (by norm_num; omega)]
        norm_num
        exact h80
      have hand : (128 + (s.length + 1) / 2) &&& 0x7F = (s.length + 1) / 2 := by
        rw [and_127_eq_mod]
        omega
      have hshr : (128 + (s.length + 1) / 2) >>> 7 = 1 := by
        rw [shr_eq_div]
        omega
      rw [hr128, read_string_packed_tag tag htag]
      rw [read_packed_8]
      show (do
        let x ← read_byte (((128 + (s.length + 1) / 2) :: packed) ++ rest)
        let y ← read_packed_aux tag (x.1 &&& 0x7F) x.2
        match string_from_utf8 (if x.1 >>> 7 ≠ 0 then y.1.dropLast else y.1) with
        | .ok s2 => Except.ok (s2, y.2)
        | .error e => Except.error e) = Except.ok (s, rest)
      rw [List.cons_append, read_byte]
      show (do
        let y ← read_packed_aux tag ((128 + (s.length + 1) / 2) &&& 0x7F) (packed ++ rest)
        match string_from_utf8 (if (128 + (s.length + 1) / 2) >>> 7 ≠ 0 then y.1.dropLast
          else y.1) with
        | .ok s2 => Except.ok (s2, y.2)
        | .error e => Except.error e : Except BinaryNodeError (List Nat × List Nat)) =
        Except.ok (s, rest)
      rw [hand, hp2e]
      show (match string_from_utf8 (if (128 + (s.length + 1) / 2) >>> 7 ≠ 0
          then (s ++ [pad]).dropLast else (s ++ [pad])) with
        | .ok s2 => Except.ok (s2, rest)
        | .error e => Except.error e : Except BinaryNodeError (List Nat × List Nat)) =
        Except.ok (s, rest)
      rw [hshr, if_pos (by omega), List.dropLast_concat, string_from_utf8, if_pos hutf]

lemma write_string_roundtrip (s : List Nat) (hlen : s.length < 2 ^ 32)
    (hutf : validUtf8 s = true) (hjf : (64 : Nat) ∉ s) :
    ∃ t body, write_string s = .ok (t :: body) ∧
      ∀ fuel rest, read_string_fuel (fuel + 1) t (body ++ rest) = .ok (s, rest) := by
  by_cases hnil : s = []
  · subst hnil
    obtain ⟨t, body, hw, _, hread⟩ := write_string_raw_roundtrip [] (by norm_num) hutf
    refine ⟨t, body, ?_, hread⟩
    rw [write_string, write_string_fuel, if_pos rfl]
    exact hw
  · have hjid : jid_decode s = none := jid_decode_none s hjf
    cases htok : wa_token_lookup s with
    | some token =>
      cases hdict : token.dict with
      | some d =>
        refine ⟨236 + d, [token.index], ?_,
          fun fuel rest => ((token_read s hnil token htok fuel rest).2 d hdict).2⟩
        rw [write_string, write_string_fuel, if_neg hnil, htok]
        show (match token.dict with
          | some d2 => Except.ok [236 + d2, token.index]
          | none => Except.ok [token.index] : Except BinaryNodeError (List Nat)) =
          Except.ok [236 + d, token.index]
        rw [hdict]
      | none =>
        refine ⟨token.index, [], ?_,
          fun fuel rest => ((token_read s hnil token htok fuel rest).1 hdict).2.2⟩
        rw [write_string, write_string_fuel, if_neg hnil, htok]
        show (match token.dict with
          | some d2 => Except.ok [236 + d2, token.index]
          | none => Except.ok [token.index] : Except BinaryNodeError (List Nat)) =
          Except.ok [token.index]
        rw [hdict]
    | none =>
      cases hnib : is_nibble s with
      | true =>
        obtain ⟨hlen127, hchars⟩ := is_nibble_all s hnib
        obtain ⟨body, hw, hread⟩ := write_packed_bytes_roundtrip 255 0 (Or.inl rfl) (by rfl)
          s hlen127
          (fun b hb => by
            obtain ⟨v, h1, h2, h3, _⟩ := pack_unpack_nibble b (hchars b hb)
            exact ⟨v, h1, h2, h3⟩)
          (fun b hb => by
            obtain ⟨v, _, _, _, h4⟩ := pack_unpack_nibble b (hchars b hb)
            exact h4)
        refine ⟨255, body, ?_, hread⟩
        rw [write_string, write_string_fuel, if_neg hnil, htok]
        simp only [hnib]
        show write_packed_bytes s 255 = Except.ok (255 :: body)
        exact hw
      | false =>
        cases hhex : is_hex s with
        | true =>
          obtain ⟨hlen127, hchars⟩ := is_hex_all s hhex
          obtain ⟨body, hw, hread⟩ := write_packed_bytes_roundtrip 251 70 (Or.inr rfl) (by rfl)
            s hlen127
            (fun b hb => by
              obtain ⟨v, h1, h2, h3, _⟩ := pack_unpack_hex b (hchars b hb)
              exact ⟨v, h1, h2, h3⟩)
            (fun b hb => by
              obtain ⟨v, _, _, _, h4⟩ := pack_unpack_hex b (hchars b hb)
              exact h4)
          refine ⟨251, body, ?_, hread⟩
          rw [write_string, write_string_fuel, if_neg hnil, htok]
          simp only [hnib, hhex]
          show write_packed_bytes s 251 = Except.ok (251 :: body)
          exact hw
        | false =>
          obtain ⟨t, body, hw, _, hread⟩ := write_string_raw_roundtrip s hlen hutf
          refine ⟨t, body, ?_, hread⟩
          rw [write_string, write_string_fuel, if_neg hnil, htok]
          simp only [hnib, hhex, hjid]
          show write_string_raw s = Except.ok (t :: body)
          exact hw

lemma encodeAttrs_roundtrip : ∀ attrs : List (List Nat × List Nat),
    (∀ p ∈ attrs, p.1.length < 2 ^ 32 ∧ validUtf8 p.1 = true ∧ (64 : Nat) ∉ p.1 ∧
      p.2.length < 2 ^ 32 ∧ validUtf8 p.2 = true ∧ (64 : Nat) ∉ p.2) →
    ∃ out, encodeAttrs attrs = .ok out ∧
      ∀ rest, read_attrs attrs.length (out ++ rest) = .ok (attrs, rest) := by
  intro attrs
  induction attrs with
  | nil =>
    intro _
    exact ⟨[], rfl, fun rest => by rw [List.length_nil, List.nil_append]; rfl⟩
  | cons p attrs ih =>
    obtain ⟨pk, pv⟩ := p
    intro h
    obtain ⟨hk1, hk2, hk3, hv1, hv2, hv3⟩ := h (pk, pv) (List.mem_cons_self _ _)
    obtain ⟨kt, kbody, hkw, hkread⟩ := write_string_roundtrip pk hk1 hk2 hk3
    obtain ⟨vt, vbody, hvw, hvread⟩ := write_string_roundtrip pv hv1 hv2 hv3
    obtain ⟨out2, hw2, hread2⟩ := ih (fun q hq => h q (List.mem_cons_of_mem _ hq))
    refine ⟨(kt :: kbody) ++ (vt :: vbody) ++ out2, ?_, fun rest => ?_⟩
    · rw [encodeAttrs, hkw]
      show (do
        let vb ← write_string pv
        let more ← encodeAttrs attrs
        pure ((kt :: kbody) ++ vb ++ more) : Except BinaryNodeError (List Nat)) =
        Except.ok ((kt :: kbody) ++ (vt :: vbody) ++ out2)
      rw [hvw]
      show (do
        let more ← encodeAttrs attrs
        pure ((kt :: kbody) ++ (vt :: vbody) ++ more) : Except BinaryNodeError (List Nat)) =
        Except.ok ((kt :: kbody) ++ (vt :: vbody) ++ out2)
      rw [hw2]
      rfl
    · rw [List.length_cons, read_attrs]
      show (do
        let x ← read_byte (((kt :: kbody) ++ (vt :: vbody) ++ out2) ++ rest)
        let k ← read_string x.1 x.2
        let y ← read_byte k.2
        let v ← read_string y.1 y.2
        let more ← read_attrs attrs.length v.2
        pure ((k.1, v.1) :: more.1, more.2) :
        Except BinaryNodeError (List (List Nat × List Nat) × List Nat)) =
        Except.ok ((pk, pv) :: attrs, rest)
      simp only [List.cons_append, List.append_assoc]
      rw [read_byte]
      show (do
        let k ← read_string kt (kbody ++ (vt :: (vbody ++ (out2 ++ rest))))
        let y ← read_byte k.2
        let v ← read_string y.1 y.2
        let more ← read_attrs attrs.length v.2
        pure ((k.1, v.1) :: more.1, more.2) :
        Except BinaryNodeError (List (List Nat × List Nat) × List Nat)) =
        Except.ok ((pk, pv) :: attrs, rest)
      rw [read_string,
        hkread (kbody ++ (vt :: (vbody ++ (out2 ++ rest)))).length
          (vt :: (vbody ++ (out2 ++ rest)))]
      show (do
        let y ← read_byte (vt :: (vbody ++ (out2 ++ rest)))
        let v ← read_string y.1 y.2
        let more ← read_attrs attrs.length v.2
        pure ((pk, v.1) :: more.1, more.2) :
        Except BinaryNodeError (List (List Nat × List Nat) × List Nat)) =
        Except.ok ((pk, pv) :: attrs, rest)
      rw [read_byte]
      show (do
        let v ← read_string vt (vbody ++ (out2 ++ rest))
        let more ← read_attrs attrs.length v.2
        pure ((pk, v.1) :: more.1, more.2) :
        Except BinaryNodeError (List (List Nat × List Nat) × List Nat)) =
        Except.ok ((pk, pv) :: attrs, rest)
      rw [read_string, hvread (vbody ++ (out2 ++ rest)).length (out2 ++ rest)]
      show (do
        let more ← read_attrs attrs.length (out2 ++ rest)
        pure ((pk, pv) :: more.1, more.2) :
        Except BinaryNodeError (List (List Nat × List Nat) × List Nat)) =
        Except.ok ((pk, pv) :: attrs, rest)
      rw [hread2 rest]
      rfl

lemma except_bind_ok {ε α β : Type} (a : α) (f : α → Except ε β) :
    (Except.ok a : Except ε α) >>= f = f a := rfl

/-- Strict byte-lexicographic sortedness of the attribute keys: the canonical
association-list form of a Rust `HashMap` in this model (unique keys in
ascending order). -/
def keysStrictSorted : List (List Nat × List Nat) → Bool
  | [] => true
  | [_] => true
  | p :: q :: rest => (lexCmp p.1 q.1 == Ordering.lt) && keysStrictSorted (q :: rest)

/- The codec size limits of the spec, read off the encoder
(src/wa/binary_node.rs:636-709): non-empty valid-UTF-8 tag, list sizes at
most 65535, byte lengths below 2^32, and canonically sorted attribute
keys. -/
mutual
def fitsNode : BinaryNode → Bool
  | .node tag attrs content =>
    decide (tag ≠ []) && decide (tag.length < 2 ^ 32) && validUtf8 tag &&
    decide (attrs.length * 2 + 1 + (if contentPresent content then 1 else 0) ≤ 65535) &&
    attrs.all (fun p => decide (p.1.length < 2 ^ 32) && validUtf8 p.1 &&
      decide (p.2.length < 2 ^ 32) && validUtf8 p.2) &&
    keysStrictSorted attrs &&
    fitsContent content
def fitsContent : NodeContent → Bool
  | .empty => true
  | .bytesContent payload => decide (payload.length < 2 ^ 32)
  | .nodes children => decide (children.length ≤ 65535) && fitsNodes children
def fitsNodes : NodeList → Bool
  | .nil => true
  | .cons h t => fitsNode h && fitsNodes t
end

/- Absence of the `@` byte (64) from every string of the node: such nodes
never trigger the JID re-encoding paths of `RealEncoder::write_string`. -/
mutual
def jidFreeNode : BinaryNode → Bool
  | .node tag attrs content =>
    decide ((64 : Nat) ∉ tag) &&
    attrs.all (fun p => decide ((64 : Nat) ∉ p.1) && decide ((64 : Nat) ∉ p.2)) &&
    jidFreeContent content
def jidFreeContent : NodeContent → Bool
  | .nodes children => jidFreeNodes children
  | _ => true
def jidFreeNodes : NodeList → Bool
  | .nil => true
  | .cons h t => jidFreeNode h && jidFreeNodes t
end

lemma sort_attrs_id : ∀ l : List (List Nat × List Nat),
    keysStrictSorted l = true → sort_attrs l = l := by
  intro l
  induction l with
  | nil => intro _; rfl
  | cons p rest ih =>
    intro h
    cases rest with
    | nil => rfl
    | cons q rest2 =>
      rw [keysStrictSorted] at h
      simp only [Bool.and_eq_true, beq_iff_eq] at h
      obtain ⟨h1, h2⟩ := h
      have ihq := ih h2
      rw [sort_attrs] at ihq ⊢
      rw [List.insertionSort, ihq, List.orderedInsert,
        if_pos (show attrLe p q by intro hgt; rw [hgt] at h1; exact absurd h1 (by decide))]

lemma fitsNode_parts (tag : List Nat) (attrs : List (List Nat × List Nat))
    (content : NodeContent) (h : fitsNode (.node tag attrs content) = true) :
    tag ≠ [] ∧ tag.length < 2 ^ 32 ∧ validUtf8 tag = true ∧
    attrs.length * 2 + 1 + (if contentPresent content then 1 else 0) ≤ 65535 ∧
    (∀ p ∈ attrs, p.1.length < 2 ^ 32 ∧ validUtf8 p.1 = true ∧
      p.2.length < 2 ^ 32 ∧ validUtf8 p.2 = true) ∧
    keysStrictSorted attrs = true ∧ fitsContent content = true := by
  rw [fitsNode] at h
  simp only [Bool.and_eq_true, decide_eq_true_eq, List.all_eq_true] at h
  obtain ⟨⟨⟨⟨⟨⟨h1, h2⟩, h3⟩, h4⟩, h5⟩, h6⟩, h7⟩ := h
  refine ⟨h1, h2, h3, h4, fun p hp => ?_, h6, h7⟩
  have hq := h5 p hp
  simp only [Bool.and_eq_true, decide_eq_true_eq] at hq
  exact ⟨hq.1.1.1, hq.1.1.2, hq.1.2, hq.2⟩

lemma jidFreeNode_parts (tag : List Nat) (attrs : List (List Nat × List Nat))
    (content : NodeContent) (h : jidFreeNode (.node tag attrs content) = true) :
    (64 : Nat) ∉ tag ∧ (∀ p ∈ attrs, (64 : Nat) ∉ p.1 ∧ (64 : Nat) ∉ p.2) ∧
    jidFreeContent content = true := by
  rw [jidFreeNode] at h
  simp only [Bool.and_eq_true, decide_eq_true_eq, List.all_eq_true] at h
  obtain ⟨⟨h1, h2⟩, h3⟩ := h
  refine ⟨h1, fun p hp => ?_, h3⟩
  have hq := h2 p hp
  simp only [Bool.and_eq_true, decide_eq_true_eq] at hq
  exact hq

lemma read_nodes_zero (fuel : Nat) (input : List Nat) :
    read_nodes_fuel fuel 0 input = .ok (.nil, input) := by
  cases fuel with
  | zero => rfl
  | succ f => rfl

lemma read_nodes_step (f cnt : Nat) (input r1 r2 : List Nat) (node : BinaryNode)
    (rest : NodeList)
    (h1 : decode_node_fuel f input = .ok (node, r1))
    (h2 : read_nodes_fuel f cnt r1 = .ok (rest, r2)) :
    read_nodes_fuel (f + 1) (cnt + 1) input = .ok (.cons node rest, r2) := by
  rw [read_nodes_fuel]
  simp only [h1, except_bind_ok, h2]
  rfl

lemma decode_node_step_empty (f : Nat) (input r1 r2 r3 r4 r5 : List Nat)
    (lt size tt : Nat) (tag : List Nat) (attrs : List (List Nat × List Nat))
    (h1 : read_byte input = .ok (lt, r1))
    (h2 : read_list_size lt r1 = .ok (size, r2))
    (h3 : read_byte r2 = .ok (tt, r3))
    (h4 : read_string tt r3 = .ok (tag, r4))
    (h5 : ¬(size = 0 ∨ tag = []))
    (h6 : read_attrs ((size - 1) >>> 1) r4 = .ok (attrs, r5))
    (h7 : ¬size % 2 = 0) :
    decode_node_fuel (f + 1) input = .ok (.node tag attrs .empty, r5) := by
  rw [decode_node_fuel]
  simp only [h1, except_bind_ok, h2, h3, h4, if_neg h5, h6, if_neg h7]
  rfl

lemma decode_node_step_nodes (f : Nat) (input r1 r2 r3 r4 r5 r6 r7 r8 : List Nat)
    (lt size tt ctag cnt : Nat) (tag : List Nat) (attrs : List (List Nat × List Nat))
    (children : NodeList)
    (h1 : read_byte input = .ok (lt, r1))
    (h2 : read_list_size lt r1 = .ok (size, r2))
    (h3 : read_byte r2 = .ok (tt, r3))
    (h4 : read_string tt r3 = .ok (tag, r4))
    (h5 : ¬(size = 0 ∨ tag = []))
    (h6 : read_attrs ((size - 1) >>> 1) r4 = .ok (attrs, r5))
    (h7 : size % 2 = 0)
    (h8 : read_byte r5 = .ok (ctag, r6))
    (h9 : is_list_tag ctag = true)
    (h10 : read_list_size ctag r6 = .ok (cnt, r7))
    (h11 : read_nodes_fuel f cnt r7 = .ok (children, r8)) :
    decode_node_fuel (f + 1) input = .ok (.node tag attrs (.nodes children), r8) := by
  rw [decode_node_fuel]
  simp only [h1, except_bind_ok, h2, h3, h4, if_neg h5, h6, if_pos h7, h8, if_pos h9,
    h10, h11]
  rfl

lemma decode_node_step_bytes252 (f : Nat) (input r1 r2 r3 r4 r5 r6 r7 r8 : List Nat)
    (lt size tt ctag len : Nat) (tag bs : List Nat) (attrs : List (List Nat × List Nat))
    (h1 : read_byte input = .ok (lt, r1))
    (h2 : read_list_size lt r1 = .ok (size, r2))
    (h3 : read_byte r2 = .ok (tt, r3))
    (h4 : read_string tt r3 = .ok (tag, r4))
    (h5 : ¬(size = 0 ∨ tag = []))
    (h6 : read_attrs ((size - 1) >>> 1) r4 = .ok (attrs, r5))
    (h7 : size % 2 = 0)
    (h8 : read_byte r5 = .ok (ctag, r6))
    (h9 : ¬is_list_tag ctag = true)
    (h10 : ctag = 252)
    (h11 : read_byte r6 = .ok (len, r7))
    (h12 : read_bytes len r7 = .ok (bs, r8)) :
    decode_node_fuel (f + 1) input = .ok (.node tag attrs (.bytesContent bs), r8) := by
  rw [decode_node_fuel]
  simp only [h1, except_bind_ok, h2, h3, h4, if_neg h5, h6, if_pos h7, h8, if_neg h9,
    if_pos h10, h11, h12]
  rfl

lemma decode_node_step_bytes253 (f : Nat) (input r1 r2 r3 r4 r5 r6 r7 r8 : List Nat)
    (lt size tt ctag len : Nat) (tag bs : List Nat) (attrs : List (List Nat × List Nat))
    (h1 : read_byte input = .ok (lt, r1))
    (h2 : read_list_size lt r1 = .ok (size, r2))
    (h3 : read_byte r2 = .ok (tt, r3))
    (h4 : read_string tt r3 = .ok (tag, r4))
    (h5 : ¬(size = 0 ∨ tag = []))
    (h6 : read_attrs ((size - 1) >>> 1) r4 = .ok (attrs, r5))
    (h7 : size % 2 = 0)
    (h8 : read_byte r5 = .ok (ctag, r6))
    (h9 : ¬is_list_tag ctag = true)
    (h10 : ¬ctag = 252)
    (h11 : ctag = 253)
    (h12 : read_int20 r6 = .ok (len, r7))
    (h13 : read_bytes len r7 = .ok (bs, r8)) :
    decode_node_fuel (f + 1) input = .ok (.node tag attrs (.bytesContent bs), r8) := by
  rw [decode_node_fuel]
  simp only [h1, except_bind_ok, h2, h3, h4, if_neg h5, h6, if_pos h7, h8, if_neg h9,
    if_neg h10, if_pos h11, h12, h13]
  rfl

lemma decode_node_step_bytes254 (f : Nat) (input r1 r2 r3 r4 r5 r6 r7 r8 : List Nat)
    (lt size tt ctag len : Nat) (tag bs : List Nat) (attrs : List (List Nat × List Nat))
    (h1 : read_byte input = .ok (lt, r1))
    (h2 : read_list_size lt r1 = .ok (size, r2))
    (h3 : read_byte r2 = .ok (tt, r3))
    (h4 : read_string tt r3 = .ok (tag, r4))
    (h5 : ¬(size = 0 ∨ tag = []))
    (h6 : read_attrs ((size - 1) >>> 1) r4 = .ok (attrs, r5))
    (h7 : size % 2 = 0)
    (h8 : read_byte r5 = .ok (ctag, r6))
    (h9 : ¬is_list_tag ctag = true)
    (h10 : ¬ctag = 252)
    (h11 : ¬ctag = 253)
    (h12 : ctag = 254)
    (h13 : read_int 4 r6 = .ok (len, r7))
    (h14 : read_bytes len r7 = .ok (bs, r8)) :
    decode_node_fuel (f + 1) input = .ok (.node tag attrs (.bytesContent bs), r8) := by
  rw [decode_node_fuel]
  simp only [h1, except_bind_ok, h2, h3, h4, if_neg h5, h6, if_pos h7, h8, if_neg h9,
    if_neg h10, if_neg h11, if_pos h12, h13, h14]
  rfl

lemma encodeNode_build (tag : List Nat) (attrs : List (List Nat × List Nat))
    (content : NodeContent) (ls tb ab cb : List Nat)
    (hne : ¬tag = [])
    (h1 : write_list_start (attrs.length * 2 + 1 + (if contentPresent content then 1 else 0)) =
      .ok ls)
    (h2 : write_string tag = .ok tb)
    (h3 : encodeAttrs (sort_attrs attrs) = .ok ab)
    (h4 : encodeContent content = .ok cb) :
    encodeNode (.node tag attrs content) = .ok (ls ++ tb ++ ab ++ cb) := by
  rw [encodeNode]
  simp only [if_neg hne, h1, except_bind_ok, h2, h3, h4]
  rfl

lemma encodeContent_bytes (payload lb : List Nat)
    (h : write_byte_length payload.length = .ok lb) :
    encodeContent (.bytesContent payload) = .ok (lb ++ payload) := by
  rw [encodeContent]
  simp only [h, except_bind_ok]
  rfl

lemma encodeContent_nodes (children : NodeList) (ls cb : List Nat)
    (h1 : write_list_start children.length = .ok ls)
    (h2 : encodeNodes children = .ok cb) :
    encodeContent (.nodes children) = .ok (ls ++ cb) := by
  rw [encodeContent]
  simp only [h1, except_bind_ok, h2]
  rfl

lemma encodeNodes_build (h : BinaryNode) (t : NodeList) (hb tb : List Nat)
    (h1 : encodeNode h = .ok hb)
    (h2 : encodeNodes t = .ok tb) :
    encodeNodes (.cons h t) = .ok (hb ++ tb) := by
  rw [encodeNodes]
  simp only [h1, except_bind_ok, h2]
  rfl

lemma byte_length_decode (len : Nat) (h : len < 2 ^ 32) :
    ∃ ct lbody, write_byte_length len = .ok (ct :: lbody) ∧ ¬is_list_tag ct = true ∧
      ((ct = 252 ∧ ∀ rest, read_byte (lbody ++ rest) = .ok (len, rest)) ∨
       (¬ct = 252 ∧ ct = 253 ∧ ∀ rest, read_int20 (lbody ++ rest) = .ok (len, rest)) ∨
       (¬ct = 252 ∧ ¬ct = 253 ∧ ct = 254 ∧
         ∀ rest, read_int 4 (lbody ++ rest) = .ok (len, rest))) := by
  rcases write_byte_length_cases len h with ⟨hr, hw⟩ | ⟨hr1, hr2, hw⟩ | ⟨hr, hw⟩
  · exact ⟨252, [len], hw, by decide, Or.inl ⟨rfl, fun rest => rfl⟩⟩
  · refine ⟨253, [(len >>> 16) &&& 0x0F, (len >>> 8) &&& 0xFF, len &&& 0xFF], hw,
      by decide, Or.inr (Or.inl ⟨by omega, rfl, fun rest => ?_⟩)⟩
    simp only [List.cons_append, List.nil_append]
    exact read_int20_bytes len hr2 rest
  · exact ⟨254, push_int_bytes len 4, hw, by decide, Or.inr (Or.inr ⟨by omega, by omega, rfl,
      fun rest => read_int4_push len h rest⟩)⟩

/- The mutual encode/decode inverse argument: a node within the size limits
(`fitsNode`) and free of `@` bytes (`jidFreeNode`) encodes successfully, and
the decoder recovers it exactly from the encoding followed by any suffix,
for every fuel at least the length of the encoding. -/
mutual
lemma encodeNode_roundtrip (n : BinaryNode) (hfits : fitsNode n = true)
    (hjf : jidFreeNode n = true) :
    ∃ out, encodeNode n = .ok out ∧ 1 ≤ out.length ∧
      ∀ fuel rest, out.length ≤ fuel → decode_node_fuel fuel (out ++ rest) = .ok (n, rest) := by
  obtain ⟨tag, attrs, content⟩ := n
  obtain ⟨hne, htlen, htutf, hsz, hattrs, hsorted, hfc⟩ := fitsNode_parts tag attrs content hfits
  obtain ⟨hjt, hjattrs, hjc⟩ := jidFreeNode_parts tag attrs content hjf
  obtain ⟨ltg, lbody, hlw, _, hlread⟩ := write_list_start_roundtrip
    (attrs.length * 2 + 1 + (if contentPresent content then 1 else 0)) hsz
  obtain ⟨tt, tbody, htw, htread⟩ := write_string_roundtrip tag htlen htutf hjt
  obtain ⟨ab, haw, haread⟩ := encodeAttrs_roundtrip attrs (fun p hp => by
    obtain ⟨a1, a2, a3, a4⟩ := hattrs p hp
    obtain ⟨b1, b2⟩ := hjattrs p hp
    exact ⟨a1, a2, b1, a3, a4, b2⟩)
  have haw2 : encodeAttrs (sort_attrs attrs) = .ok ab := by
    rw [sort_attrs_id attrs hsorted]
    exact haw
  have hszne : ¬(attrs.length * 2 + 1 + (if contentPresent content then 1 else 0) = 0 ∨
      tag = []) := by
    rintro (h0 | h0)
    · omega
    · exact hne h0
  have hprle : (if contentPresent content then 1 else 0) ≤ 1 := by split <;> omega
  have hhalf : ((attrs.length * 2 + 1 + (if contentPresent content then 1 else 0)) - 1) >>> 1 =
      attrs.length := by
    rw [shr_eq_div]
    omega
  cases content with
  | empty =>
    have hpr : (if contentPresent NodeContent.empty then 1 else 0) = 0 := rfl
    refine ⟨(ltg :: lbody) ++ (tt :: tbody) ++ ab ++ [], ?_,
      by simp only [List.length_append, List.length_cons]; omega, fun fuel rest hfuel => ?_⟩
    · exact encodeNode_build tag attrs .empty (ltg :: lbody) (tt :: tbody) ab [] hne hlw htw
        haw2 rfl
    · cases fuel with
      | zero =>
        simp only [List.length_append, List.length_cons] at hfuel
        omega
      | succ f =>
        have hinput : ((ltg :: lbody) ++ (tt :: tbody) ++ ab ++ []) ++ rest =
            ltg :: (lbody ++ (tt :: (tbody ++ (ab ++ rest)))) := by simp
        rw [hinput]
        have s1 : read_byte (ltg :: (lbody ++ (tt :: (tbody ++ (ab ++ rest))))) =
            .ok (ltg, lbody ++ (tt :: (tbody ++ (ab ++ rest)))) := rfl
        have s2 := hlread (tt :: (tbody ++ (ab ++ rest)))
        have s3 : read_byte (tt :: (tbody ++ (ab ++ rest))) =
            .ok (tt, tbody ++ (ab ++ rest)) := rfl
        have s4 : read_string tt (tbody ++ (ab ++ rest)) = .ok (tag, ab ++ rest) := by
          rw [read_string]
          exact htread (tbody ++ (ab ++ rest)).length (ab ++ rest)
        have s6 : read_attrs (((attrs.length * 2 + 1 +
            (if contentPresent NodeContent.empty then 1 else 0)) - 1) >>> 1) (ab ++ rest) =
            .ok (attrs, rest) := by
          rw [hhalf]
          exact haread rest
        have s7 : ¬(attrs.length * 2 + 1 +
            (if contentPresent NodeContent.empty then 1 else 0)) % 2 = 0 := by omega
        exact decode_node_step_empty f _ _ _ _ _ _ _ _ _ _ _ s1 s2 s3 s4 hszne s6 s7
  | bytesContent payload =>
    have hpr : (if contentPresent (NodeContent.bytesContent payload) then 1 else 0) = 1 := rfl
    have hplen : payload.length < 2 ^ 32 := by
      rw [fitsContent] at hfc
      simpa using hfc
    obtain ⟨ct, cbody, hcw, hctag, hcdisp⟩ := byte_length_decode payload.length hplen
    have hcontent : encodeContent (.bytesContent payload) = .ok ((ct :: cbody) ++ payload) :=
      encodeContent_bytes payload (ct :: cbody) hcw
    refine ⟨(ltg :: lbody) ++ (tt :: tbody) ++ ab ++ ((ct :: cbody) ++ payload), ?_,
      by simp only [List.length_append, List.length_cons]; omega, fun fuel rest hfuel => ?_⟩
    · exact encodeNode_build tag attrs (.bytesContent payload) (ltg :: lbody) (tt :: tbody) ab
        ((ct :: cbody) ++ payload) hne hlw htw haw2 hcontent
    · cases fuel with
      | zero =>
        simp only [List.length_append, List.length_cons] at hfuel
        omega
      | succ f =>
        have hinput : ((ltg :: lbody) ++ (tt :: tbody) ++ ab ++ ((ct :: cbody) ++ payload)) ++
            rest = ltg :: (lbody ++ (tt :: (tbody ++ (ab ++
              (ct :: (cbody ++ (payload ++ rest))))))) := by simp
        rw [hinput]
        have s1 : read_byte (ltg :: (lbody ++ (tt :: (tbody ++ (ab ++
            (ct :: (cbody ++ (payload ++ rest)))))))) = .ok (ltg, lbody ++ (tt :: (tbody ++
            (ab ++ (ct :: (cbody ++ (payload ++ rest))))))) := rfl
        have s2 := hlread (tt :: (tbody ++ (ab ++ (ct :: (cbody ++ (payload ++ rest))))))
        have s3 : read_byte (tt :: (tbody ++ (ab ++ (ct :: (cbody ++ (payload ++ rest)))))) =
            .ok (tt, tbody ++ (ab ++ (ct :: (cbody ++ (payload ++ rest))))) := rfl
        have s4 : read_string tt (tbody ++ (ab ++ (ct :: (cbody ++ (payload ++ rest))))) =
            .ok (tag, ab ++ (ct :: (cbody ++ (payload ++ rest)))) := by
          rw [read_string]
          exact htread (tbody ++ (ab ++ (ct :: (cbody ++ (payload ++ rest))))).length
            (ab ++ (ct :: (cbody ++ (payload ++ rest))))
        have s6 : read_attrs (((attrs.length * 2 + 1 + (if contentPresent
            (NodeContent.bytesContent payload) then 1 else 0)) - 1) >>> 1)
            (ab ++ (ct :: (cbody ++ (payload ++ rest)))) =
            .ok (attrs, ct :: (cbody ++ (payload ++ rest))) := by
          rw [hhalf]
          exact haread (ct :: (cbody ++ (payload ++ rest)))
        have s7 : (attrs.length * 2 + 1 + (if contentPresent
            (NodeContent.bytesContent payload) then 1 else 0)) % 2 = 0 := by omega
        have s8 : read_byte (ct :: (cbody ++ (payload ++ rest))) =
            .ok (ct, cbody ++ (payload ++ rest)) := rfl
        have s12 : read_bytes payload.length (payload ++ rest) = .ok (payload, rest) :=
          read_bytes_append payload rest
        rcases hcdisp with ⟨hc252, hcread⟩ | ⟨hc252, hc253, hcread⟩ |
          ⟨hc252, hc253, hc254, hcread⟩
        · exact decode_node_step_bytes252 f _ _ _ _ _ _ _ _ _ _ _ _ _ _ _ _ _ s1 s2 s3 s4
            hszne s6 s7 s8 hctag hc252 (hcread (payload ++ rest)) s12
        · exact decode_node_step_bytes253 f _ _ _ _ _ _ _ _ _ _ _ _ _ _ _ _ _ s1 s2 s3 s4
            hszne s6 s7 s8 hctag hc252 hc253 (hcread (payload ++ rest)) s12
        · exact decode_node_step_bytes254 f _ _ _ _ _ _ _ _ _ _ _ _ _ _ _ _ _ s1 s2 s3 s4
            hszne s6 s7 s8 hctag hc252 hc253 hc254 (hcread (payload ++ rest)) s12
  | nodes children =>
    have hpr : (if contentPresent (NodeContent.nodes children) then 1 else 0) = 1 := rfl
    have hfc2 : children.length ≤ 65535 ∧ fitsNodes children = true := by
      rw [fitsContent] at hfc
      simpa using hfc
    have hjc2 : jidFreeNodes children = true := by
      rw [jidFreeContent] at hjc
      exact hjc
    obtain ⟨ct, cbody, hcw, hctag, hcread⟩ := write_list_start_roundtrip children.length hfc2.1
    obtain ⟨cb, hencN, hreadN⟩ := encodeNodes_roundtrip children hfc2.2 hjc2
    have hcontent : encodeContent (.nodes children) = .ok ((ct :: cbody) ++ cb) :=
      encodeContent_nodes children (ct :: cbody) cb hcw hencN
    refine ⟨(ltg :: lbody) ++ (tt :: tbody) ++ ab ++ ((ct :: cbody) ++ cb), ?_,
      by simp only [List.length_append, List.length_cons]; omega, fun fuel rest hfuel => ?_⟩
    · exact encodeNode_build tag attrs (.nodes children) (ltg :: lbody) (tt :: tbody) ab
        ((ct :: cbody) ++ cb) hne hlw htw haw2 hcontent
    · cases fuel with
      | zero =>
        simp only [List.length_append, List.length_cons] at hfuel
        omega
      | succ f =>
        have hinput : ((ltg :: lbody) ++ (tt :: tbody) ++ ab ++ ((ct :: cbody) ++ cb)) ++
            rest = ltg :: (lbody ++ (tt :: (tbody ++ (ab ++
              (ct :: (cbody ++ (cb ++ rest))))))) := by simp
        rw [hinput]
        have s1 : read_byte (ltg :: (lbody ++ (tt :: (tbody ++ (ab ++
            (ct :: (cbody ++ (cb ++ rest)))))))) = .ok (ltg, lbody ++ (tt :: (tbody ++
            (ab ++ (ct :: (cbody ++ (cb ++ rest))))))) := rfl
        have s2 := hlread (tt :: (tbody ++ (ab ++ (ct :: (cbody ++ (cb ++ rest))))))
        have s3 : read_byte (tt :: (tbody ++ (ab ++ (ct :: (cbody ++ (cb ++ rest)))))) =
            .ok (tt, tbody ++ (ab ++ (ct :: (cbody ++ (cb ++ rest))))) := rfl
        have s4 : read_string tt (tbody ++ (ab ++ (ct :: (cbody ++ (cb ++ rest))))) =
            .ok (tag, ab ++ (ct :: (cbody ++ (cb ++ rest)))) := by
          rw [read_string]
          exact htread (tbody ++ (ab ++ (ct :: (cbody ++ (cb ++ rest))))).length
            (ab ++ (ct :: (cbody ++ (cb ++ rest))))
        have s6 : read_attrs (((attrs.length * 2 + 1 + (if contentPresent
            (NodeContent.nodes children) then 1 else 0)) - 1) >>> 1)
            (ab ++ (ct :: (cbody ++ (cb ++ rest)))) =
            .ok (attrs, ct :: (cbody ++ (cb ++ rest))) := by
          rw [hhalf]
          exact haread (ct :: (cbody ++ (cb ++ rest)))
        have s7 : (attrs.length * 2 + 1 + (if contentPresent
            (NodeContent.nodes children) then 1 else 0)) % 2 = 0 := by omega
        have s8 : read_byte (ct :: (cbody ++ (cb ++ rest))) =
            .ok (ct, cbody ++ (cb ++ rest)) := rfl
        have s10 := hcread (cb ++ rest)
        have hfbound : cb.length + 1 ≤ f := by
          simp only [List.length_append, List.length_cons] at hfuel
          omega
        have s11 := hreadN f rest hfbound
        exact decode_node_step_nodes f _ _ _ _ _ _ _ _ _ _ _ _ _ _ _ _ _ s1 s2 s3 s4 hszne
          s6 s7 s8 hctag s10 s11

lemma encodeNodes_roundtrip (l : NodeList) (hfits : fitsNodes l = true)
    (hjf : jidFreeNodes l = true) :
    ∃ out, encodeNodes l = .ok out ∧
      ∀ fuel rest, out.length + 1 ≤ fuel →
        read_nodes_fuel fuel l.length (out ++ rest) = .ok (l, rest) := by
  cases l with
  | nil =>
    refine ⟨[], rfl, fun fuel rest _ => ?_⟩
    rw [NodeList.length, List.nil_append]
    exact read_nodes_zero fuel rest
  | cons hd t =>
    have hf2 : fitsNode hd = true ∧ fitsNodes t = true := by
      rw [fitsNodes] at hfits
      simpa using hfits
    have hj2 : jidFreeNode hd = true ∧ jidFreeNodes t = true := by
      rw [jidFreeNodes] at hjf
      simpa using hjf
    obtain ⟨hb, hwh, hlen1, hreadh⟩ := encodeNode_roundtrip hd hf2.1 hj2.1
    obtain ⟨tb, hwt, hreadt⟩ := encodeNodes_roundtrip t hf2.2 hj2.2
    refine ⟨hb ++ tb, encodeNodes_build hd t hb tb hwh hwt, fun fuel rest hfuel => ?_⟩
    cases fuel with
    | zero => omega
    | succ f =>
      rw [NodeList.length]
      have hbound1 : hb.length ≤ f := by
        simp only [List.length_append] at hfuel
        omega
      have hbound2 : tb.length + 1 ≤ f := by
        simp only [List.length_append] at hfuel
        omega
      have s1 := hreadh f (tb ++ rest) hbound1
      have s2 := hreadt f rest hbound2
      rw [List.append_assoc]
      exact read_nodes_step f t.length _ _ _ hd t s1 s2
end

/-- C1 (amended): for every BinaryNode within the codec size limits
(`fitsNode`: non-empty valid-UTF-8 tag, canonically sorted attribute keys,
list sizes at most 65535, byte lengths below 2^32) whose strings are free of
the `@` byte (`jidFreeNode`), encoding succeeds and decoding the encoding
returns the node exactly: decode_real (encode_real N) = ok N. -/
theorem wabinary_roundtrip (inflate : List Nat → Except String (List Nat)) (n : BinaryNode)
    (hfits : fitsNode n = true) (hjf : jidFreeNode n = true) :
    ∃ out, encode_real n = .ok out ∧ decode_real inflate out = .ok n := by
  obtain ⟨body, henc, hlen1, hread⟩ := encodeNode_roundtrip n hfits hjf
  have hdec : decompress_if_required inflate (0 :: body) = .ok body := by
    show (if (0 : Nat) &&& 0x02 ≠ 0 then
        match inflate body with
        | .ok out => Except.ok out
        | .error e => Except.error (.InflateFailed e)
      else if ((0 : Nat) :: body).length < 2 then Except.error .InvalidCompressedNode
      else Except.ok body : Except BinaryNodeError (List Nat)) = .ok body
    rw [if_neg (by decide), if_neg (by simp only [List.length_cons]; omega)]
  have hnode2 : decode_node_fuel (body.length + 1) body = .ok (n, []) := by
    have h := hread (body.length + 1) [] (by omega)
    rwa [List.append_nil] at h
  refine ⟨0 :: body, ?_, ?_⟩
  · rw [encode_real, henc]
    rfl
  · rw [decode_real]
    simp only [hdec, except_bind_ok, hnode2]
    rfl

/-- C1 counterexample to the claim as stated: the node with tag `a_1@x`
(bytes [97, 95, 49, 64, 120]), no attributes and no content satisfies every
codec size limit (`fitsNode`), yet `encode_real` routes the tag through the
JID writer, which drops the `_1` agent suffix, and decoding the encoding
yields the different node with tag `a@x`. -/
theorem wabinary_roundtrip_counterexample :
    fitsNode (.node [97, 95, 49, 64, 120] [] .empty) = true ∧
    encode_real (.node [97, 95, 49, 64, 120] [] .empty) =
      .ok [0, 248, 1, 250, 252, 1, 97, 252, 1, 120] ∧
    decode_real (fun _ => .error "nozlib") [0, 248, 1, 250, 252, 1, 97, 252, 1, 120] =
      .ok (.node [97, 64, 120] [] .empty) ∧
    BinaryNode.node [97, 64, 120] [] .empty ≠ .node [97, 95, 49, 64, 120] [] .empty :=
  ⟨by decide, by rfl, by rfl, by decide⟩

/-- C1 witness: the amended round-trip theorem applied to the concrete node
`<iq id="12">` (tag `iq`, one attribute pair, empty content). -/
theorem wabinary_roundtrip_witness :
    ∃ out, encode_real (.node [105, 113] [([105, 100], [49, 50])] .empty) = .ok out ∧
      decode_real (fun _ => .error "nozlib") out =
        .ok (.node [105, 113] [([105, 100], [49, 50])] .empty) :=
  wabinary_roundtrip (fun _ => .error "nozlib")
    (.node [105, 113] [([105, 100], [49, 50])] .empty) (by decide) (by decide)

lemma lexCmp_eq_iff : ∀ a b : List Nat, lexCmp a b = .eq ↔ a = b := by
  intro a
  induction a with
  | nil =>
    intro b
    cases b with
    | nil => simp [lexCmp]
    | cons y ys => simp [lexCmp]
  | cons x xs ih =>
    intro b
    cases b with
    | nil => simp [lexCmp]
    | cons y ys =>
      rw [lexCmp]
      by_cases h1 : x < y
      · rw [if_pos h1]
        constructor
        · intro hc
          exact Ordering.noConfusion hc
        · intro hc
          injection hc with h2 h3
          omega
      · rw [if_neg h1]
        by_cases h2 : y < x
        · rw [if_pos h2]
          constructor
          · intro hc
            exact Ordering.noConfusion hc
          · intro hc
            injection hc with h3 h4
            omega
        · rw [if_neg h2]
          have hxy : x = y := by omega
          subst hxy
          rw [ih ys]
          simp

lemma lexCmp_gt_iff : ∀ a b : List Nat, lexCmp a b = .gt ↔ lexCmp b a = .lt := by
  intro a
  induction a with
  | nil =>
    intro b
    cases b with
    | nil => simp [lexCmp]
    | cons y ys => simp [lexCmp]
  | cons x xs ih =>
    intro b
    cases b with
    | nil => simp [lexCmp]
    | cons y ys =>
      rw [lexCmp, lexCmp]
      by_cases h1 : x < y
      · rw [if_pos h1, if_neg (by omega), if_pos h1]
        decide
      · rw [if_neg h1]
        by_cases h2 : y < x
        · rw [if_pos h2, if_pos h2]
          decide
        · rw [if_neg h2, if_neg h2, if_neg h1]
          exact ih ys

lemma lexCmp_lt_trans : ∀ a b c : List Nat, lexCmp a b = .lt → lexCmp b c = .lt →
    lexCmp a c = .lt := by
  intro a
  induction a with
  | nil =>
    intro b c h1 h2
    cases b with
    | nil => exact absurd h1 (by rw [lexCmp]; decide)
    | cons y ys =>
      cases c with
      | nil => exact absurd h2 (by rw [lexCmp]; decide)
      | cons z zs => rw [lexCmp]
  | cons x xs ih =>
    intro b c h1 h2
    cases b with
    | nil => exact absurd h1 (by rw [lexCmp]; decide)
    | cons y ys =>
      cases c with
      | nil => exact absurd h2 (by rw [lexCmp]; decide)
      | cons z zs =>
        rw [lexCmp] at h1 h2 ⊢
        by_cases hxy : x < y
        · rw [if_pos hxy] at h1
          by_cases hyz : y < z
          · rw [if_pos (by omega)]
          · rw [if_neg hyz] at h2
            by_cases hzy : z < y
            · rw [if_pos hzy] at h2
              exact absurd h2 (by decide)
            · rw [if_pos (by omega)]
        · rw [if_neg hxy] at h1
          by_cases hyx : y < x
          · rw [if_pos hyx] at h1
            exact absurd h1 (by decide)
          · rw [if_neg hyx] at h1
            have hxy2 : x = y := by omega
            subst hxy2
            by_cases hyz : x < z
            · rw [if_pos hyz]
            · rw [if_neg hyz] at h2 ⊢
              by_cases hzy : z < x
              · rw [if_pos hzy] at h2
                exact absurd h2 (by decide)
              · rw [if_neg hzy] at h2 ⊢
                exact ih ys zs h1 h2

instance : IsTotal (List Nat × List Nat) attrLe := by
  constructor
  intro p q
  by_cases h : lexCmp p.1 q.1 = .gt
  · right
    intro hgt
    rw [lexCmp_gt_iff] at h
    rw [hgt] at h
    exact Ordering.noConfusion h
  · exact Or.inl h

instance : IsTrans (List Nat × List Nat) attrLe := by
  constructor
  intro p q r h1 h2
  intro hgt
  have hq1 : lexCmp p.1 q.1 = .lt ∨ p.1 = q.1 := by
    cases he : lexCmp p.1 q.1 with
    | lt => exact Or.inl rfl
    | eq => exact Or.inr ((lexCmp_eq_iff p.1 q.1).mp he)
    | gt => exact absurd he h1
  have hq2 : lexCmp q.1 r.1 = .lt ∨ q.1 = r.1 := by
    cases he : lexCmp q.1 r.1 with
    | lt => exact Or.inl rfl
    | eq => exact Or.inr ((lexCmp_eq_iff q.1 r.1).mp he)
    | gt => exact absurd he h2
  rcases hq1 with hlt1 | heq1
  · rcases hq2 with hlt2 | heq2
    · have hlt := lexCmp_lt_trans p.1 q.1 r.1 hlt1 hlt2
      rw [hlt] at hgt
      exact Ordering.noConfusion hgt
    · rw [← heq2] at hgt
      exact h1 hgt
  · rcases hq2 with hlt2 | heq2
    · rw [heq1] at hgt
      exact h2 hgt
    · rw [heq1, heq2, (lexCmp_eq_iff r.1 r.1).mpr rfl] at hgt
      exact Ordering.noConfusion hgt

lemma attrLe_refl (p : List Nat × List Nat) : attrLe p p := by
  intro hgt
  rw [(lexCmp_eq_iff p.1 p.1).mpr rfl] at hgt
  exact Ordering.noConfusion hgt

lemma sorted_perm_unique : ∀ l1 l2 : List (List Nat × List Nat),
    l1.Pairwise attrLe → l2.Pairwise attrLe → l1.Perm l2 →
    (l1.map Prod.fst).Nodup → l1 = l2 := by
  intro l1
  induction l1 with
  | nil =>
    intro l2 _ _ hp _
    exact (List.Perm.eq_nil hp.symm).symm
  | cons p t1 ih =>
    intro l2 hs1 hs2 hp hnd
    have hpmem : p ∈ l2 := hp.mem_iff.mp (List.mem_cons_self p t1)
    cases l2 with
    | nil => exact absurd (List.Perm.eq_nil hp) (by simp)
    | cons q t2 =>
      simp only [List.map_cons, List.nodup_cons] at hnd
      have hqmem : q ∈ p :: t1 := hp.mem_iff.mpr (List.mem_cons_self q t2)
      have hle1 : attrLe p q := by
        rcases List.mem_cons.mp hqmem with h | hmem
        · rw [← h]
          exact attrLe_refl q
        · exact (List.pairwise_cons.mp hs1).1 q hmem
      have hle2 : attrLe q p := by
        rcases List.mem_cons.mp hpmem with h | hmem
        · rw [← h]
          exact attrLe_refl p
        · exact (List.pairwise_cons.mp hs2).1 p hmem
      have hkey : p.1 = q.1 := by
        cases he : lexCmp p.1 q.1 with
        | eq => exact (lexCmp_eq_iff p.1 q.1).mp he
        | gt => exact absurd he hle1
        | lt => exact absurd ((lexCmp_gt_iff q.1 p.1).mpr he) hle2
      have hpq : p = q := by
        rcases List.mem_cons.mp hqmem with h | hmem
        · exact h.symm
        · exfalso
          have hin : p.1 ∈ t1.map Prod.fst := by
            rw [hkey]
            exact List.mem_map_of_mem Prod.fst hmem
          exact hnd.1 hin
      subst hpq
      have hperm2 : t1.Perm t2 := (List.perm_cons p).mp hp
      have htail := ih t2 (List.pairwise_cons.mp hs1).2 (List.pairwise_cons.mp hs2).2
        hperm2 hnd.2
      rw [htail]

lemma sort_attrs_perm_eq (a1 a2 : List (List Nat × List Nat)) (hperm : a1.Perm a2)
    (hnd : (a1.map Prod.fst).Nodup) : sort_attrs a1 = sort_attrs a2 := by
  apply sorted_perm_unique
  · exact List.sorted_insertionSort attrLe a1
  · exact List.sorted_insertionSort attrLe a2
  · exact ((List.perm_insertionSort attrLe a1).trans hperm).trans
      (List.perm_insertionSort attrLe a2).symm
  · exact (((List.perm_insertionSort attrLe a1).map Prod.fst).nodup_iff).mpr hnd

/- Equality of nodes up to reordering of the attribute pair lists: two
model nodes represent the same Rust node (whose attributes live in a
`HashMap` with no duplicate keys and no fixed iteration order) exactly when
they are related by `NodeEquiv`. -/
mutual
def NodeEquiv : BinaryNode → BinaryNode → Prop
  | .node t1 a1 c1, .node t2 a2 c2 =>
    t1 = t2 ∧ a1.Perm a2 ∧ (a1.map Prod.fst).Nodup ∧ ContentEquiv c1 c2
def ContentEquiv : NodeContent → NodeContent → Prop
  | .nodes l1, .nodes l2 => NodesEquiv l1 l2
  | .bytesContent b1, .bytesContent b2 => b1 = b2
  | .empty, .empty => True
  | _, _ => False
def NodesEquiv : NodeList → NodeList → Prop
  | .nil, .nil => True
  | .cons h1 t1, .cons h2 t2 => NodeEquiv h1 h2 ∧ NodesEquiv t1 t2
  | _, _ => False
end

lemma contentPresent_congr (c1 c2 : NodeContent) (h : ContentEquiv c1 c2) :
    contentPresent c1 = contentPresent c2 := by
  cases c1 <;> cases c2 <;> first | rfl | exact ((h : False)).elim

lemma nodesLength_congr (l1 l2 : NodeList) (h : NodesEquiv l1 l2) :
    l1.length = l2.length := by
  cases l1 with
  | nil =>
    cases l2 with
    | nil => rfl
    | cons h2 t2 => exact ((h : False)).elim
  | cons h1 t1 =>
    cases l2 with
    | nil => exact ((h : False)).elim
    | cons h2 t2 =>
      rw [NodesEquiv] at h
      rw [NodeList.length, NodeList.length, nodesLength_congr t1 t2 h.2]

/- The mutual congruence argument behind encoder determinism: the encoders
send `NodeEquiv`-related nodes to identical byte sequences, because
`encode_node` sorts the attribute pairs by key before emission. -/
mutual
lemma encodeNode_congr (n1 n2 : BinaryNode) (h : NodeEquiv n1 n2) :
    encodeNode n1 = encodeNode n2 := by
  obtain ⟨t1, a1, c1⟩ := n1
  obtain ⟨t2, a2, c2⟩ := n2
  rw [NodeEquiv] at h
  obtain ⟨ht, hperm, hnd, hc⟩ := h
  subst ht
  have hlen : a1.length = a2.length := hperm.length_eq
  have hsort : sort_attrs a1 = sort_attrs a2 := sort_attrs_perm_eq a1 a2 hperm hnd
  have hpres : contentPresent c1 = contentPresent c2 := contentPresent_congr c1 c2 hc
  have hcont : encodeContent c1 = encodeContent c2 := encodeContent_congr c1 c2 hc
  rw [encodeNode, encodeNode]
  simp only [hlen, hsort, hpres, hcont]

lemma encodeContent_congr (c1 c2 : NodeContent) (h : ContentEquiv c1 c2) :
    encodeContent c1 = encodeContent c2 := by
  cases c1 with
  | empty =>
    cases c2 with
    | empty => rfl
    | bytesContent b2 => exact ((h : False)).elim
    | nodes l2 => exact ((h : False)).elim
  | bytesContent b1 =>
    cases c2 with
    | empty => exact ((h : False)).elim
    | bytesContent b2 =>
      rw [ContentEquiv] at h
      rw [h]
    | nodes l2 => exact ((h : False)).elim
  | nodes l1 =>
    cases c2 with
    | empty => exact ((h : False)).elim
    | bytesContent b2 => exact ((h : False)).elim
    | nodes l2 =>
      rw [ContentEquiv] at h
      have hlen : l1.length = l2.length := nodesLength_congr l1 l2 h
      have hcb : encodeNodes l1 = encodeNodes l2 := encodeNodes_congr l1 l2 h
      rw [encodeContent, encodeContent]
      simp only [hlen, hcb]

lemma encodeNodes_congr (l1 l2 : NodeList) (h : NodesEquiv l1 l2) :
    encodeNodes l1 = encodeNodes l2 := by
  cases l1 with
  | nil =>
    cases l2 with
    | nil => rfl
    | cons h2 t2 => exact ((h : False)).elim
  | cons h1 t1 =>
    cases l2 with
    | nil => exact ((h : False)).elim
    | cons h2 t2 =>
      rw [NodesEquiv] at h
      have e1 : encodeNode h1 = encodeNode h2 := encodeNode_congr h1 h2 h.1
      have e2 : encodeNodes t1 = encodeNodes t2 := encodeNodes_congr t1 t2 h.2
      rw [encodeNodes, encodeNodes]
      simp only [e1, e2]
end

/-- C9: encoder determinism. `encode_real` is a function of the abstract
node alone: any two model nodes related by `NodeEquiv` (equal tags and
contents, attribute pair lists equal up to reordering with no duplicate
keys — i.e. representing the same Rust `HashMap` under any two iteration
orders) produce identical byte sequences, because `encode_node` sorts the
attribute pairs by key ascending before emitting them. -/
theorem encode_real_deterministic (n1 n2 : BinaryNode) (h : NodeEquiv n1 n2) :
    encode_real n1 = encode_real n2 := by
  rw [encode_real, encode_real, encodeNode_congr n1 n2 h]

/-- C9 witness: the determinism theorem applied to the two iteration orders
of the attribute map `{b: 1, c: 2}` on a node with tag `a`. -/
theorem encode_real_deterministic_witness :
    NodeEquiv (.node [97] [([98], [49]), ([99], [50])] .empty)
      (.node [97] [([99], [50]), ([98], [49])] .empty) ∧
    encode_real (.node [97] [([98], [49]), ([99], [50])] .empty) =
      encode_real (.node [97] [([99], [50]), ([98], [49])] .empty) := by
  have hequiv : NodeEquiv (.node [97] [([98], [49]), ([99], [50])] .empty)
      (.node [97] [([99], [50]), ([98], [49])] .empty) := by
    rw [NodeEquiv]
    exact ⟨rfl, by decide, by decide, trivial⟩
  exact ⟨hequiv, encode_real_deterministic _ _ hequiv⟩

end ChatWarp
